import Mathlib

/-!
Verification development for the JSON-Builder repository.

The repository contains two overlapping prototype implementations of the same
CSV-to-JSON transform:

  * `src/build_json_gui.py`    (called V1 below): class `TemplateForms`,
    class `JSONBuilder` with `_gen_id`, `_make_extraction`,
    `_populate_form_from_row`, `build`, and the `App.on_build` validation.
  * `src/build_json_gui_V2.py` (called V2 below): `_normalize`,
    `_index_by_normalized`, `IdFactory`, `_collect_all_numeric_keys`,
    `_set_response`, `_populate_form_data_from_row`, `group_df`, and
    `build_from_files`.

This file is a shallow embedding of both: Python dicts that are used as
ordered key-value maps become association lists (`List (String × _)`) with
insertion-order-preserving update (`dictInsert`, `groupUpd`); CSV rows become
association lists from column name to cell string; JSON values become the
`JVal` tree; Python strings are modelled through `List Char` operations over
the ASCII fragment (the `re` character classes `\w`, `\s` and `str.lower`,
`str.strip` are modelled on ASCII, plus the three curly-quote code points that
`_normalize` replaces explicitly).  Stateful code (the identifier counter of
`JSONBuilder` / `IdFactory`) is modelled by explicit counter passing.  Response
dictionaries are modelled with both sub-fields always present (absent JSON key
is identified with value ""), so Python `dict.setdefault(k, "")` on them is the
identity.
-/

/-! ### Ordered-dict primitives (Python dict semantics) -/

/-- Lookup in an association list (Python `d[k]` / `k in d`). -/
def alookup {α : Type} : List (String × α) → String → Option α
  | [], _ => none
  | (k, v) :: rest, key => if k = key then some v else alookup rest key

/-- Python `d[k] = v` on an insertion-ordered dict: an existing key keeps its
position and gets the new value, a new key is appended at the end. -/
def dictInsert {α : Type} : List (String × α) → String → α → List (String × α)
  | [], key, v => [(key, v)]
  | (k, w) :: rest, key, v =>
      if k = key then (key, v) :: rest else (k, w) :: dictInsert rest key v

/-- A CSV row: mapping from column name to cell string. -/
abbrev Row := List (String × String)

/-- Python `row.get(col, "")`. -/
def rget (r : Row) (k : String) : String := (alookup r k).getD ""

/-- Python `d.setdefault(k, []).append(r)` on an insertion-ordered dict of
lists: append `r` to the existing group of `k`, or append a new singleton
group at the end. -/
def groupUpd {κ : Type} [DecidableEq κ] : List (κ × List Row) → κ → Row → List (κ × List Row)
  | [], key, r => [(key, [r])]
  | (k, l) :: rest, key, r =>
      if k = key then (k, l ++ [r]) :: rest else (k, l) :: groupUpd rest key r

/-- One grouping pass over the rows: `for r in rows: acc.setdefault(key(r), []).append(r)`. -/
def groupByKey {κ : Type} [DecidableEq κ] (keyf : Row → κ) (rows : List Row) : List (κ × List Row) :=
  rows.foldl (fun acc r => groupUpd acc (keyf r) r) []

/-! ### ASCII model of the Python string primitives -/

/-- The whitespace class: ASCII fragment of Python `\s` / `str.strip`
(space, tab, newline, carriage return, vertical tab, form feed). -/
def wsChar (c : Char) : Bool :=
  c.toNat = 32 || c.toNat = 9 || c.toNat = 10 || c.toNat = 13 || c.toNat = 11 || c.toNat = 12

/-- Remove trailing whitespace (Python `str.rstrip`). -/
def dropTrailingWs : List Char → List Char
  | [] => []
  | c :: cs =>
      if dropTrailingWs cs = [] ∧ wsChar c = true then [] else c :: dropTrailingWs cs

/-- Python `str.strip` on character lists. -/
def stripWs (l : List Char) : List Char := dropTrailingWs (l.dropWhile wsChar)

/-- Python `str.strip` on strings. -/
def strim (s : String) : String := ⟨stripWs s.data⟩

/-! ### Decimal representation (Python `str(n)` / `int(s)` on digit strings) -/

/-- Little-endian base-10 digits with explicit fuel (structurally recursive so
that the kernel can evaluate it). -/
def reprDigitsAux : Nat → Nat → List Nat
  | 0, _ => []
  | _ + 1, 0 => []
  | fuel + 1, n + 1 => ((n + 1) % 10) :: reprDigitsAux fuel ((n + 1) / 10)

/-- Python `str(n)` for a natural number: its decimal representation. -/
def natRepr (n : Nat) : String :=
  if n = 0 then "0" else ⟨(reprDigitsAux n n).reverse.map Nat.digitChar⟩

/-- Python `int(s)` restricted to digit strings. -/
def valNat (s : String) : Nat :=
  s.data.foldl (fun a c => a * 10 + (c.toNat - 48)) 0

theorem reprDigitsAux_eq_digits (fuel n : Nat) (h : n ≤ fuel) :
    reprDigitsAux fuel n = Nat.digits 10 n := by
  induction fuel generalizing n with
  | zero => interval_cases n; simp [reprDigitsAux]
  | succ f ih =>
    match n with
    | 0 => simp [reprDigitsAux]
    | m + 1 =>
      rw [reprDigitsAux, Nat.digits_def' (by norm_num : 1 < 10) (Nat.succ_pos m)]
      congr 1
      exact ih _ (Nat.le_of_lt_succ (Nat.lt_of_lt_of_le (Nat.div_lt_self (Nat.succ_pos m) (by norm_num)) h))

theorem valNat_foldl (l : List Nat) (hl : ∀ d ∈ l, d < 10) (a : Nat) :
    (l.reverse.map Nat.digitChar).foldl (fun a c => a * 10 + (c.toNat - 48)) a =
      a * 10 ^ l.length + Nat.ofDigits 10 l := by
  induction l generalizing a with
  | nil => simp [Nat.ofDigits]
  | cons d ds ih =>
    simp only [List.reverse_cons, List.map_append, List.foldl_append, List.map_cons, List.map_nil,
      List.foldl_cons, List.foldl_nil]
    rw [ih (fun x hx => hl x (List.mem_cons_of_mem _ hx))]
    have hd : d < 10 := hl d (List.mem_cons_self _ _)
    have hdc : (Nat.digitChar d).toNat - 48 = d := by interval_cases d <;> decide
    rw [hdc, Nat.ofDigits_cons]
    simp only [List.length_cons, pow_succ]
    ring

/-- Round trip: parsing the decimal representation gives back the number. -/
theorem valNat_natRepr (n : Nat) : valNat (natRepr n) = n := by
  by_cases h : n = 0
  · subst h; decide
  · unfold natRepr valNat
    rw [if_neg h]
    show ((reprDigitsAux n n).reverse.map Nat.digitChar).foldl _ 0 = n
    rw [reprDigitsAux_eq_digits n n le_rfl,
      valNat_foldl _ (fun d hd => Nat.digits_lt_base (by norm_num) hd) 0]
    simp [Nat.ofDigits_digits]

theorem natRepr_injective {a b : Nat} (h : natRepr a = natRepr b) : a = b := by
  have := valNat_natRepr a
  rw [h, valNat_natRepr b] at this
  exact this.symm

/-! ### JSON trees and the V2 identifier factory -/

/-- JSON values, with arrays and objects as cons cells (isomorphic to the list
form, chosen so that every recursion below is structural and the kernel can
evaluate concrete templates). -/
inductive JVal where
  | str : String → JVal
  | num : Int → JVal
  | arrNil : JVal
  | arrCons : JVal → JVal → JVal
  | objNil : JVal
  | objCons : String → JVal → JVal → JVal

/-- Build a JSON array from a list. -/
def jarr : List JVal → JVal := fun l => l.foldr JVal.arrCons JVal.arrNil

/-- Build a JSON object from key-value pairs (insertion order preserved). -/
def jobj : List (String × JVal) → JVal :=
  fun l => l.foldr (fun kv t => JVal.objCons kv.1 kv.2 t) JVal.objNil

/-- Python `k.isdigit()` for the keys scanned by `_collect_all_numeric_keys`
(ASCII digits). -/
def isNatString (s : String) : Bool :=
  s ≠ "" && s.data.all Char.isDigit

/-- The mapping keys of the template tree, at any nesting depth, that are
syntactically unsigned-integer strings, in traversal order.  V2's
`_collect_all_numeric_keys` visits exactly these keys and collects
`int(k)` for each; see `collect_all_numeric_keys`. -/
def collectNumericKeyStrings : JVal → List String
  | .str _ => []
  | .num _ => []
  | .arrNil => []
  | .arrCons x xs => collectNumericKeyStrings x ++ collectNumericKeyStrings xs
  | .objNil => []
  | .objCons k v kvs =>
      (if isNatString k then [k] else []) ++
        collectNumericKeyStrings v ++ collectNumericKeyStrings kvs

/-- V2 `_collect_all_numeric_keys`: the integer values of all digit-string
mapping keys in the template, in traversal order. -/
def collect_all_numeric_keys (j : JVal) : List Nat :=
  (collectNumericKeyStrings j).map valNat

/-- V2: `start_from = max(all_numeric_keys) if all_numeric_keys else 10000`. -/
def start_from (j : JVal) : Nat :=
  let ks := collect_all_numeric_keys j
  if ks.isEmpty then 10000 else ks.foldl Nat.max 0

/-- V2 `IdFactory.next` (also V1 `JSONBuilder._gen_id`): increment the counter,
return it as a decimal string together with the new counter state. -/
def idFactoryNext (c : Nat) : String × Nat := (natRepr (c + 1), c + 1)

/-- The sequence of identifiers produced by `n` successive calls of
`idFactoryNext` starting from counter state `c`. -/
def genIds (c : Nat) : Nat → List String
  | 0 => []
  | n + 1 => (idFactoryNext c).1 :: genIds (idFactoryNext c).2 n

theorem mem_genIds {g : String} {c n : Nat} (h : g ∈ genIds c n) :
    ∃ i, i < n ∧ g = natRepr (c + i + 1) := by
  induction n generalizing c with
  | zero => simp [genIds] at h
  | succ m ih =>
    simp only [genIds, idFactoryNext, List.mem_cons] at h
    rcases h with h | h
    · exact ⟨0, Nat.succ_pos m, h⟩
    · obtain ⟨i, hi, hg⟩ := ih h
      exact ⟨i + 1, Nat.succ_lt_succ hi, by rw [hg]; ring_nf⟩

theorem init_le_foldl_max (l : List Nat) (a : Nat) : a ≤ l.foldl Nat.max a := by
  induction l generalizing a with
  | nil => exact le_refl a
  | cons y ys ih => exact le_trans (Nat.le_max_left a y) (ih (Nat.max a y))

theorem le_foldl_max (l : List Nat) (x : Nat) (hx : x ∈ l) (a : Nat) :
    x ≤ l.foldl Nat.max a := by
  induction l generalizing a with
  | nil => cases hx
  | cons y ys ih =>
    rcases List.mem_cons.1 hx with rfl | h
    · exact le_trans (Nat.le_max_right a x) (init_le_foldl_max ys (Nat.max a x))
    · exact ih h (Nat.max a y)

theorem genIds_pairwise_ne (c n : Nat) : (genIds c n).Pairwise (· ≠ ·) := by
  induction n generalizing c with
  | zero => exact List.Pairwise.nil
  | succ m ih =>
    refine List.Pairwise.cons ?_ (ih (c + 1))
    intro g hg
    obtain ⟨i, _, rfl⟩ := mem_genIds hg
    show natRepr (c + 1) ≠ natRepr (c + 1 + i + 1)
    intro h
    have := natRepr_injective h
    omega

/--
C1 (amended, V2 side): the identifiers produced by one run of V2's
`IdFactory`, seeded by `start_from` from the template scan
(`_collect_all_numeric_keys`), are pairwise distinct and none of them equals
any mapping key of the template that is syntactically an unsigned-integer
string, at any nesting depth.  The counter is initialized to the maximum
found numeric key (or to 10000 when there is none) and each call
pre-increments, so the first identifier is `max + 1` (resp. `10001`).
-/
theorem c1_v2_ids_fresh (tpl : JVal) (n : Nat) :
    (genIds (start_from tpl) n).Pairwise (· ≠ ·) ∧
      ∀ g ∈ genIds (start_from tpl) n,
        ∀ k ∈ collectNumericKeyStrings tpl, g ≠ k := by
  refine ⟨genIds_pairwise_ne _ n, ?_⟩
  intro g hg k hk
  obtain ⟨i, _, rfl⟩ := mem_genIds hg
  intro h
  have hmem : valNat k ∈ collect_all_numeric_keys tpl :=
    List.mem_map_of_mem valNat hk
  have hne : ¬ (collect_all_numeric_keys tpl).isEmpty := by
    intro he
    rw [List.isEmpty_iff] at he
    rw [he] at hmem
    cases hmem
  have hle : valNat k ≤ start_from tpl := by
    unfold start_from
    simp only [hne, if_false, Bool.false_eq_true]
    exact le_foldl_max _ _ hmem 0
  have : valNat k = start_from tpl + i + 1 := by
    rw [← h, valNat_natRepr]
  omega

/-- Witness for `c1_v2_ids_fresh` at a concrete template and run length. -/
theorem c1_v2_ids_fresh_witness :
    "10001" ∈ genIds (start_from (jobj [("data_sets", jobj [("9999", JVal.num 0)])])) 3 ∧
      "9999" ∈ collectNumericKeyStrings (jobj [("data_sets", jobj [("9999", JVal.num 0)])]) ∧
      "10001" ≠ "9999" := by
  refine ⟨by decide, by decide, ?_⟩
  exact (c1_v2_ids_fresh (jobj [("data_sets", jobj [("9999", JVal.num 0)])]) 3).2
    "10001" (by decide) "9999" (by decide)


/-! ### V2 `_normalize`: the Header Normalizer -/

/-- ASCII fragment of the regex word class `\w`: letters, digits, underscore. -/
def isWordChar (c : Char) : Bool :=
  (48 ≤ c.toNat && c.toNat ≤ 57) || (65 ≤ c.toNat && c.toNat ≤ 90) ||
    (97 ≤ c.toNat && c.toNat ≤ 122) || c.toNat = 95

/-- The allow-list of `re.sub(r"[^\w%()/?\-\s\.]", "", s)`: word characters,
the punctuation `% ( ) / ? - .`, and whitespace. -/
def allowedChar (c : Char) : Bool :=
  isWordChar c || c.toNat = 37 || c.toNat = 40 || c.toNat = 41 || c.toNat = 47 ||
    c.toNat = 63 || c.toNat = 45 || c.toNat = 46 || wsChar c

/-- The quote unification of `_normalize`: curly apostrophe (U+2019) to the
straight apostrophe, curly double quotes (U+201C, U+201D) to the straight
double quote. -/
def quoteReplChar (c : Char) : Char :=
  if c.toNat = 8217 then Char.ofNat 39
  else if c.toNat = 8220 then Char.ofNat 34
  else if c.toNat = 8221 then Char.ofNat 34
  else c

/-- `s.replace("_", " ")` character-wise. -/
def usToSpChar (c : Char) : Char := if c.toNat = 95 then ' ' else c

/-- Python `str.lower` on one character, ASCII fragment (this is also exactly
core Lean's `Char.toLower`). -/
def pyLowerChar (c : Char) : Char :=
  if 65 ≤ c.toNat ∧ c.toNat ≤ 90 then Char.ofNat (c.toNat + 32) else c

/-- Python `str.lower`, ASCII fragment. -/
def lowerStr (s : String) : String := ⟨s.data.map pyLowerChar⟩

/-- `re.sub(r"\s+", " ", s)`: replace every maximal whitespace run by one
space.  The flag records whether we are currently inside a whitespace run. -/
def collapseAux : Bool → List Char → List Char
  | _, [] => []
  | p, c :: cs =>
      if wsChar c then
        (if p then collapseAux true cs else ' ' :: collapseAux true cs)
      else c :: collapseAux false cs

/-- `re.sub(r"\s+", " ", s)` on a character list. -/
def collapseWs (l : List Char) : List Char := collapseAux false l

/-- The body of V2 `_normalize` on character lists, following the source
statement by statement: strip and lowercase, collapse whitespace, unify curly
quotes, strip characters outside the allow-list, turn underscores into spaces,
collapse whitespace again and strip. -/
def normalizeL (l : List Char) : List Char :=
  stripWs (collapseWs
    ((List.filter allowedChar
      ((collapseWs (List.map pyLowerChar (stripWs l))).map quoteReplChar)).map usToSpChar))

/-- V2 `_normalize`: `None` yields the empty string, otherwise the pipeline
above. -/
def pyNormalize : Option String → String
  | none => ""
  | some s => ⟨normalizeL s.data⟩

/-- Shorthand for normalizing a present string. -/
def normStr (s : String) : String := pyNormalize (some s)

/-- Reference canonicalizer written from the spec words for §4.1: canonical
lowercase form, punctuation outside the allow-list stripped, underscores
treated as spaces, interior whitespace collapsed, edges stripped.  Used to
express "two strings that differ only in case / whitespace / banned
punctuation / underscore-vs-space". -/
def canonicalL (l : List Char) : List Char :=
  stripWs (collapseWs ((List.filter allowedChar (List.map pyLowerChar l)).map usToSpChar))

/-- `canonicalL` on strings. -/
def canonicalStr (s : String) : String := ⟨canonicalL s.data⟩

example : normStr "  Foo_Bar  " = "foo bar" := by decide
example : normStr "A,  b!? (c)" = "a b? (c)" := by decide
example : normStr "Associated CERs" = "associated cers" := by decide
example : canonicalStr "  Foo_Bar  " = "foo bar" := by decide

/-! ### Character-level facts for the normalizer -/

theorem toNat_ofNat_valid {n : Nat} (h : n.isValidChar) : (Char.ofNat n).toNat = n := by
  rw [Char.ofNat, dif_pos h]
  rfl

theorem char_toNat_inj {a b : Char} (h : a.toNat = b.toNat) : a = b := by
  apply Char.ext
  apply UInt32.eq_of_toBitVec_eq
  apply BitVec.eq_of_toNat_eq
  exact h

theorem toNat_pyLowerChar (c : Char) :
    (pyLowerChar c).toNat = if 65 ≤ c.toNat ∧ c.toNat ≤ 90 then c.toNat + 32 else c.toNat := by
  unfold pyLowerChar
  split
  · next h => exact toNat_ofNat_valid (Or.inl (by omega))
  · rfl

theorem wsChar_pyLower (c : Char) : wsChar (pyLowerChar c) = wsChar c := by
  rw [Bool.eq_iff_iff]
  simp only [wsChar, toNat_pyLowerChar, Bool.or_eq_true, decide_eq_true_eq]
  by_cases hc : 65 ≤ c.toNat ∧ c.toNat ≤ 90
  · rw [if_pos hc]; omega
  · rw [if_neg hc]

theorem allowedChar_pyLower (c : Char) : allowedChar (pyLowerChar c) = allowedChar c := by
  rw [Bool.eq_iff_iff]
  simp only [allowedChar, isWordChar, wsChar, toNat_pyLowerChar, Bool.or_eq_true,
    Bool.and_eq_true, decide_eq_true_eq]
  by_cases hc : 65 ≤ c.toNat ∧ c.toNat ≤ 90
  · rw [if_pos hc]; omega
  · rw [if_neg hc]

theorem usToSp_of_ws {c : Char} (h : wsChar c = true) : usToSpChar c = c := by
  unfold usToSpChar
  rw [if_neg]
  simp only [wsChar, Bool.or_eq_true, decide_eq_true_eq] at h
  omega

theorem allowedChar_usToSp (c : Char) : allowedChar (usToSpChar c) = allowedChar c := by
  rw [Bool.eq_iff_iff]
  unfold usToSpChar
  by_cases h : c.toNat = 95
  · rw [if_pos h]
    simp only [allowedChar, isWordChar, wsChar, Bool.or_eq_true, Bool.and_eq_true,
      decide_eq_true_eq]
    have : (' ' : Char).toNat = 32 := by decide
    omega
  · rw [if_neg h]

theorem usToSp_pyLower (c : Char) : usToSpChar (pyLowerChar c) = pyLowerChar (usToSpChar c) := by
  by_cases h : c.toNat = 95
  · have : c = Char.ofNat 95 := char_toNat_inj (by rw [h]; decide)
    subst this
    decide
  · have h1 : usToSpChar c = c := by unfold usToSpChar; rw [if_neg h]
    have h2 : usToSpChar (pyLowerChar c) = pyLowerChar c := by
      unfold usToSpChar
      rw [if_neg]
      rw [toNat_pyLowerChar]
      by_cases hc : 65 ≤ c.toNat ∧ c.toNat ≤ 90
      · rw [if_pos hc]; omega
      · rw [if_neg hc]; exact h
    rw [h1, h2]

theorem quoteRepl_of_allowed {c : Char} (h : allowedChar c = true) : quoteReplChar c = c := by
  unfold quoteReplChar
  simp only [allowedChar, isWordChar, wsChar, Bool.or_eq_true, Bool.and_eq_true,
    decide_eq_true_eq] at h
  rw [if_neg (by omega), if_neg (by omega), if_neg (by omega)]

theorem allowedChar_quoteRepl_of_not {c : Char} (h : allowedChar c = false) :
    allowedChar (quoteReplChar c) = false := by
  unfold quoteReplChar
  by_cases h1 : c.toNat = 8217
  · rw [if_pos h1]; decide
  · rw [if_neg h1]
    by_cases h2 : c.toNat = 8220
    · rw [if_pos h2]; decide
    · rw [if_neg h2]
      by_cases h3 : c.toNat = 8221
      · rw [if_pos h3]; decide
      · rw [if_neg h3]; exact h

/-! ### Word decomposition: the semantic domain of whitespace collapsing -/

/-- Negation of the whitespace class. -/
def nonWs (c : Char) : Bool := !wsChar c

/-- Does the list start with a whitespace character? -/
def leadWs : List Char → Bool
  | [] => false
  | c :: _ => wsChar c

/-- Maximal non-whitespace runs of a character list, with explicit fuel so
that the recursion is structural. -/
def wordsAux : Nat → List Char → List (List Char)
  | 0, _ => []
  | _ + 1, [] => []
  | fuel + 1, c :: cs =>
      if wsChar c then wordsAux fuel cs
      else (c :: cs.takeWhile nonWs) :: wordsAux fuel (cs.dropWhile nonWs)

/-- The maximal non-whitespace runs ("words") of a character list. -/
def words (l : List Char) : List (List Char) := wordsAux l.length l

/-- Join words with single spaces. -/
def joinWords : List (List Char) → List Char
  | [] => []
  | [w] => w
  | w :: x :: tl => w ++ ' ' :: joinWords (x :: tl)

theorem wordsAux_nil (fuel : Nat) : wordsAux fuel [] = [] := by
  cases fuel <;> rfl

theorem wordsAux_congr :
    ∀ (fuel fuel' : Nat) (l : List Char), l.length ≤ fuel → l.length ≤ fuel' →
      wordsAux fuel l = wordsAux fuel' l := by
  intro fuel
  induction fuel with
  | zero =>
    intro fuel' l hl _
    have : l = [] := List.eq_nil_of_length_eq_zero (Nat.le_zero.mp hl)
    subst this
    rw [wordsAux_nil, wordsAux_nil]
  | succ m ih =>
    intro fuel' l hl hl'
    match l with
    | [] => rw [wordsAux_nil, wordsAux_nil]
    | c :: cs =>
      match fuel' with
      | 0 => simp at hl'
      | m' + 1 =>
        simp only [List.length_cons, Nat.succ_le_succ_iff] at hl hl'
        simp only [wordsAux]
        by_cases h : wsChar c = true
        · rw [if_pos h, if_pos h]
          exact ih m' cs hl hl'
        · rw [if_neg h, if_neg h]
          have hd : (cs.dropWhile nonWs).length ≤ m :=
            le_trans ((List.dropWhile_sublist (l := cs) nonWs).length_le) hl
          have hd' : (cs.dropWhile nonWs).length ≤ m' :=
            le_trans ((List.dropWhile_sublist (l := cs) nonWs).length_le) hl'
          rw [ih m' (cs.dropWhile nonWs) hd hd']

theorem words_cons_ws {c : Char} {cs : List Char} (h : wsChar c = true) :
    words (c :: cs) = words cs := by
  show wordsAux (c :: cs).length (c :: cs) = wordsAux cs.length cs
  simp only [List.length_cons, wordsAux, if_pos h]

theorem words_cons_nonws {c : Char} {cs : List Char} (h : ¬ wsChar c = true) :
    words (c :: cs) = (c :: cs.takeWhile nonWs) :: words (cs.dropWhile nonWs) := by
  show wordsAux (c :: cs).length (c :: cs) = _
  simp only [List.length_cons, wordsAux, if_neg h]
  rw [wordsAux_congr cs.length (cs.dropWhile nonWs).length (cs.dropWhile nonWs)
    ((List.dropWhile_sublist (l := cs) nonWs).length_le) le_rfl]
  rfl

theorem words_dropWhile_ws (l : List Char) : words (l.dropWhile wsChar) = words l := by
  induction l with
  | nil => rfl
  | cons c cs ih =>
    by_cases h : wsChar c = true
    · rw [List.dropWhile_cons_of_pos h, ih, words_cons_ws h]
    · rw [List.dropWhile_cons_of_neg h]

theorem words_of_all_ws {l : List Char} (h : ∀ c ∈ l, wsChar c = true) : words l = [] := by
  induction l with
  | nil => rfl
  | cons c cs ih =>
    rw [words_cons_ws (h c (List.mem_cons_self _ _))]
    exact ih (fun d hd => h d (List.mem_cons_of_mem _ hd))

theorem all_ws_of_dropTrailing_nil {l : List Char} (h : dropTrailingWs l = []) :
    ∀ c ∈ l, wsChar c = true := by
  induction l with
  | nil => intro c hc; cases hc
  | cons c cs ih =>
    rw [dropTrailingWs] at h
    by_cases hr : dropTrailingWs cs = [] ∧ wsChar c = true
    · intro d hd
      rcases List.mem_cons.1 hd with rfl | hm
      · exact hr.2
      · exact ih hr.1 d hm
    · rw [if_neg hr] at h
      exact absurd h (List.cons_ne_nil _ _)

theorem length_dropTrailing_le (l : List Char) : (dropTrailingWs l).length ≤ l.length := by
  induction l with
  | nil => exact le_refl 0
  | cons c cs ih =>
    rw [dropTrailingWs]
    by_cases h : dropTrailingWs cs = [] ∧ wsChar c = true
    · rw [if_pos h]
      exact Nat.zero_le _
    · rw [if_neg h]
      simpa using Nat.succ_le_succ ih

theorem words_dropTrailing :
    ∀ (n : Nat) (l : List Char), l.length ≤ n → words (dropTrailingWs l) = words l := by
  intro n
  induction n with
  | zero =>
    intro l hl
    have : l = [] := List.eq_nil_of_length_eq_zero (Nat.le_zero.mp hl)
    subst this
    rfl
  | succ m ih =>
    intro l hl
    match l with
    | [] => rfl
    | c :: cs =>
      simp only [List.length_cons, Nat.succ_le_succ_iff] at hl
      rw [dropTrailingWs]
      by_cases hA : dropTrailingWs cs = [] ∧ wsChar c = true
      · rw [if_pos hA]
        rw [words_cons_ws hA.2, words_of_all_ws (all_ws_of_dropTrailing_nil hA.1)]
        rfl
      · rw [if_neg hA]
        by_cases hc : wsChar c = true
        · rw [words_cons_ws hc, words_cons_ws hc]
          exact ih cs hl
        · rw [words_cons_nonws hc, words_cons_nonws hc]
          have htake : (dropTrailingWs cs).takeWhile nonWs = cs.takeWhile nonWs := by
            clear hA hl ih
            induction cs with
            | nil => rfl
            | cons d ds ihd =>
              rw [dropTrailingWs]
              by_cases hB : dropTrailingWs ds = [] ∧ wsChar d = true
              · rw [if_pos hB]
                have : nonWs d = false := by simp [nonWs, hB.2]
                rw [List.takeWhile_cons_of_neg (by simp [this])]
                rfl
              · rw [if_neg hB]
                by_cases hd : wsChar d = true
                · have : nonWs d = false := by simp [nonWs, hd]
                  rw [List.takeWhile_cons_of_neg (by simp [this]),
                    List.takeWhile_cons_of_neg (by simp [this])]
                · have : nonWs d = true := by simp [nonWs, hd]
                  rw [List.takeWhile_cons_of_pos this, List.takeWhile_cons_of_pos this, ihd]
          have hdrop : (dropTrailingWs cs).dropWhile nonWs = dropTrailingWs (cs.dropWhile nonWs) := by
            clear hA hl ih htake
            induction cs with
            | nil => rfl
            | cons d ds ihd =>
              rw [dropTrailingWs]
              by_cases hB : dropTrailingWs ds = [] ∧ wsChar d = true
              · rw [if_pos hB]
                have : nonWs d = false := by simp [nonWs, hB.2]
                rw [List.dropWhile_cons_of_neg (by simp [this]), dropTrailingWs, if_pos hB]
                rfl
              · rw [if_neg hB]
                by_cases hd : wsChar d = true
                · have hnw : nonWs d = false := by simp [nonWs, hd]
                  rw [List.dropWhile_cons_of_neg (by simp [hnw]),
                    List.dropWhile_cons_of_neg (by simp [hnw]), dropTrailingWs, if_neg hB]
                · have hnw : nonWs d = true := by simp [nonWs, hd]
                  rw [List.dropWhile_cons_of_pos hnw, List.dropWhile_cons_of_pos hnw, ihd]
          rw [htake, hdrop]
          have : (cs.dropWhile nonWs).length ≤ m :=
            le_trans (List.dropWhile_sublist (l := cs) nonWs).length_le hl
          rw [ih (cs.dropWhile nonWs) this]

theorem words_strip (l : List Char) : words (stripWs l) = words l := by
  unfold stripWs
  rw [words_dropTrailing (l.dropWhile wsChar).length _ le_rfl, words_dropWhile_ws]

theorem collapseAux_nil (p : Bool) : collapseAux p [] = [] := rfl

theorem takeWhile_collapseFalse (m : List Char) :
    (collapseAux false m).takeWhile nonWs = m.takeWhile nonWs := by
  induction m with
  | nil => rfl
  | cons d ds ih =>
    by_cases hd : wsChar d = true
    · have hnw : nonWs d = false := by simp [nonWs, hd]
      rw [collapseAux, if_pos hd, if_neg (Bool.false_ne_true),
        List.takeWhile_cons_of_neg (by decide),
        List.takeWhile_cons_of_neg (by simp [hnw])]
    · have hnw : nonWs d = true := by simp [nonWs, hd]
      rw [collapseAux, if_neg hd, List.takeWhile_cons_of_pos hnw,
        List.takeWhile_cons_of_pos hnw, ih]

theorem dropWhile_nonWs_collapseFalse (m : List Char) :
    (collapseAux false m).dropWhile nonWs = collapseAux false (m.dropWhile nonWs) := by
  induction m with
  | nil => rfl
  | cons d ds ih =>
    by_cases hd : wsChar d = true
    · have hnw : nonWs d = false := by simp [nonWs, hd]
      rw [collapseAux, if_pos hd, if_neg (Bool.false_ne_true),
        List.dropWhile_cons_of_neg (by decide),
        List.dropWhile_cons_of_neg (by simp [hnw]), collapseAux, if_pos hd,
        if_neg (Bool.false_ne_true)]
    · have hnw : nonWs d = true := by simp [nonWs, hd]
      rw [collapseAux, if_neg hd, List.dropWhile_cons_of_pos hnw,
        List.dropWhile_cons_of_pos hnw, ih]

theorem words_collapseAux :
    ∀ (n : Nat) (p : Bool) (l : List Char), l.length ≤ n → words (collapseAux p l) = words l := by
  intro n
  induction n with
  | zero =>
    intro p l hl
    have : l = [] := List.eq_nil_of_length_eq_zero (Nat.le_zero.mp hl)
    subst this
    rfl
  | succ m ih =>
    intro p l hl
    match l with
    | [] => rfl
    | c :: cs =>
      simp only [List.length_cons, Nat.succ_le_succ_iff] at hl
      by_cases hc : wsChar c = true
      · rw [collapseAux, if_pos hc, words_cons_ws hc]
        cases p with
        | true => exact ih true cs hl
        | false =>
          rw [if_neg (Bool.false_ne_true), words_cons_ws (by decide : wsChar ' ' = true)]
          exact ih true cs hl
      · rw [collapseAux, if_neg hc, words_cons_nonws hc, words_cons_nonws hc,
          takeWhile_collapseFalse, dropWhile_nonWs_collapseFalse]
        have : (cs.dropWhile nonWs).length ≤ m :=
          le_trans (List.dropWhile_sublist (l := cs) nonWs).length_le hl
        rw [ih false (cs.dropWhile nonWs) this]

theorem words_collapse (l : List Char) : words (collapseWs l) = words l :=
  words_collapseAux l.length false l le_rfl

theorem collapseAux_true_eq (l : List Char) :
    collapseAux true l = collapseAux false (l.dropWhile wsChar) := by
  induction l with
  | nil => rfl
  | cons c cs ih =>
    by_cases hc : wsChar c = true
    · rw [collapseAux, if_pos hc, if_pos rfl, List.dropWhile_cons_of_pos hc, ih]
    · rw [collapseAux, if_neg hc, List.dropWhile_cons_of_neg hc, collapseAux, if_neg hc]

theorem dropWhile_ws_collapseTrue (l : List Char) :
    (collapseAux true l).dropWhile wsChar = collapseAux true l := by
  induction l with
  | nil => rfl
  | cons c cs ih =>
    by_cases hc : wsChar c = true
    · rw [collapseAux, if_pos hc, if_pos rfl, ih]
    · rw [collapseAux, if_neg hc, List.dropWhile_cons_of_neg hc]

theorem dropWhile_ws_collapseFalse (l : List Char) :
    (collapseAux false l).dropWhile wsChar = collapseAux true l := by
  induction l with
  | nil => rfl
  | cons c cs ih =>
    by_cases hc : wsChar c = true
    · rw [collapseAux, if_pos hc, if_neg (Bool.false_ne_true),
        List.dropWhile_cons_of_pos (by decide : wsChar ' ' = true), collapseAux, if_pos hc,
        if_pos rfl, dropWhile_ws_collapseTrue]
    · rw [collapseAux, if_neg hc, List.dropWhile_cons_of_neg hc, collapseAux, if_neg hc]

theorem nil_not_mem_words :
    ∀ (n : Nat) (l : List Char), l.length ≤ n → ([] : List Char) ∉ words l := by
  intro n
  induction n with
  | zero =>
    intro l hl
    have : l = [] := List.eq_nil_of_length_eq_zero (Nat.le_zero.mp hl)
    subst this
    intro h
    cases h
  | succ m ih =>
    intro l hl
    match l with
    | [] => intro h; cases h
    | c :: cs =>
      simp only [List.length_cons, Nat.succ_le_succ_iff] at hl
      by_cases hc : wsChar c = true
      · rw [words_cons_ws hc]
        exact ih cs hl
      · rw [words_cons_nonws hc]
        intro h
        rcases List.mem_cons.1 h with he | hm
        · exact List.cons_ne_nil _ _ he.symm
        · exact ih (cs.dropWhile nonWs)
            (le_trans (List.dropWhile_sublist (l := cs) nonWs).length_le hl) hm

theorem words_mem_ne_nil {l w : List Char} (h : w ∈ words l) : w ≠ [] := by
  intro hw
  subst hw
  exact nil_not_mem_words l.length l le_rfl h

theorem joinWords_cons (w : List Char) (tl : List (List Char)) :
    joinWords (w :: tl) = w ++ (if tl = [] then [] else ' ' :: joinWords tl) := by
  cases tl with
  | nil => simp [joinWords]
  | cons x xs => simp [joinWords]

theorem leadWs_dropWhile_ws (l : List Char) : leadWs (l.dropWhile wsChar) = false := by
  induction l with
  | nil => rfl
  | cons c cs ih =>
    by_cases hc : wsChar c = true
    · rw [List.dropWhile_cons_of_pos hc]
      exact ih
    · rw [List.dropWhile_cons_of_neg hc]
      exact Bool.eq_false_iff.mpr hc

theorem joinWords_ne_nil {W : List (List Char)} (hW : W ≠ [])
    (hw : ∀ w ∈ W, w ≠ ([] : List Char)) : joinWords W ≠ [] := by
  match W with
  | [] => exact absurd rfl hW
  | w :: tl =>
    rw [joinWords_cons]
    intro h
    rcases List.append_eq_nil.mp h with ⟨h1, _⟩
    exact hw w (List.mem_cons_self _ _) h1

theorem dropTrailing_collapseFalse :
    ∀ (n : Nat) (l : List Char), l.length ≤ n →
      dropTrailingWs (collapseAux false l) =
        (if words l = [] then []
         else (if leadWs l = true then [' '] else []) ++ joinWords (words l)) := by
  intro n
  induction n with
  | zero =>
    intro l hl
    have : l = [] := List.eq_nil_of_length_eq_zero (Nat.le_zero.mp hl)
    subst this
    rfl
  | succ m ih =>
    intro l hl
    match l with
    | [] => rfl
    | c :: cs =>
      simp only [List.length_cons, Nat.succ_le_succ_iff] at hl
      by_cases hc : wsChar c = true
      · rw [collapseAux, if_pos hc, if_neg (Bool.false_ne_true), collapseAux_true_eq,
          dropTrailingWs]
        have hlen : (cs.dropWhile wsChar).length ≤ m :=
          le_trans (List.dropWhile_sublist (l := cs) wsChar).length_le hl
        rw [ih (cs.dropWhile wsChar) hlen, leadWs_dropWhile_ws, words_dropWhile_ws]
        rw [words_cons_ws hc, leadWs]
        by_cases hW : words cs = []
        · rw [if_pos hW, if_pos hW, if_pos ⟨rfl, by decide⟩]
        · rw [if_neg hW, if_neg hW, if_neg (by simp : ¬(false = true))]
          rw [if_neg]
          · rw [hc, if_pos rfl]
            rfl
          · intro hx
            exact joinWords_ne_nil hW (fun w hw => words_mem_ne_nil hw) (by simpa using hx.1)
      · rw [collapseAux, if_neg hc, dropTrailingWs, if_neg (by simp [hc]),
          ih cs hl, words_cons_nonws hc]
        rw [if_neg (List.cons_ne_nil _ _), leadWs, Bool.eq_false_iff.mpr hc,
          if_neg (by simp : ¬(false = true)), List.nil_append, joinWords_cons]
        show c :: _ = (c :: cs.takeWhile nonWs) ++ _
        rw [List.cons_append]
        congr 1
        match cs with
        | [] =>
          simp [words, wordsAux, List.takeWhile]
        | d :: ds =>
          by_cases hd : wsChar d = true
          · have hnw : nonWs d = false := by simp [nonWs, hd]
            rw [List.takeWhile_cons_of_neg (by simp [hnw]),
              List.dropWhile_cons_of_neg (by simp [hnw]), leadWs, hd]
            by_cases hW : words (d :: ds) = []
            · rw [if_pos hW, if_pos hW]
              rfl
            · rw [if_neg hW, if_neg hW, if_pos rfl]
              rfl
          · have hnw : nonWs d = true := by simp [nonWs, hd]
            rw [List.takeWhile_cons_of_pos hnw, List.dropWhile_cons_of_pos hnw, leadWs,
              Bool.eq_false_iff.mpr hd, words_cons_nonws hd]
            rw [if_neg (List.cons_ne_nil _ _), if_neg (by simp : ¬(false = true)),
              List.nil_append, joinWords_cons]

theorem strip_collapse_eq_joinWords (l : List Char) :
    stripWs (collapseWs l) = joinWords (words l) := by
  unfold stripWs collapseWs
  rw [dropWhile_ws_collapseFalse, collapseAux_true_eq,
    dropTrailing_collapseFalse (l.dropWhile wsChar).length _ le_rfl,
    leadWs_dropWhile_ws, words_dropWhile_ws]
  by_cases h : words l = []
  · rw [if_pos h, h]
    rfl
  · rw [if_neg h, if_neg (by simp : ¬(false = true)), List.nil_append]

theorem takeWhile_nonWs_append {B : List Char} (hB : leadWs B = true) (A : List Char) :
    (A ++ B).takeWhile nonWs = A.takeWhile nonWs := by
  induction A with
  | nil =>
    match B, hB with
    | b :: bs, hB =>
      rw [List.nil_append]
      exact List.takeWhile_cons_of_neg (by simp [nonWs, leadWs] at hB ⊢; exact hB)
  | cons a as ih =>
    by_cases ha : nonWs a = true
    · rw [List.cons_append, List.takeWhile_cons_of_pos ha, List.takeWhile_cons_of_pos ha, ih]
    · rw [List.cons_append, List.takeWhile_cons_of_neg ha, List.takeWhile_cons_of_neg ha]

theorem dropWhile_nonWs_append {B : List Char} (hB : leadWs B = true) (A : List Char) :
    (A ++ B).dropWhile nonWs = A.dropWhile nonWs ++ B := by
  induction A with
  | nil =>
    match B, hB with
    | b :: bs, hB =>
      rw [List.nil_append]
      show List.dropWhile nonWs (b :: bs) = [] ++ b :: bs
      rw [List.nil_append]
      exact List.dropWhile_cons_of_neg (by simp [nonWs, leadWs] at hB ⊢; exact hB)
  | cons a as ih =>
    by_cases ha : nonWs a = true
    · rw [List.cons_append, List.dropWhile_cons_of_pos ha, List.dropWhile_cons_of_pos ha, ih]
    · rw [List.cons_append, List.dropWhile_cons_of_neg ha, List.dropWhile_cons_of_neg ha,
        List.cons_append]

theorem words_append_of_ws_boundary :
    ∀ (n : Nat) (A B : List Char), A.length ≤ n → (B = [] ∨ leadWs B = true) →
      words (A ++ B) = words A ++ words B := by
  intro n
  induction n with
  | zero =>
    intro A B hA _
    have : A = [] := List.eq_nil_of_length_eq_zero (Nat.le_zero.mp hA)
    subst this
    rfl
  | succ m ih =>
    intro A B hA hB
    rcases hB with rfl | hB
    · rw [List.append_nil]
      show words A = words A ++ ([] : List (List Char))
      rw [List.append_nil]
    · match A with
      | [] => rfl
      | c :: cs =>
        simp only [List.length_cons, Nat.succ_le_succ_iff] at hA
        by_cases hc : wsChar c = true
        · rw [List.cons_append, words_cons_ws hc, words_cons_ws hc]
          exact ih cs B hA (Or.inr hB)
        · rw [List.cons_append, words_cons_nonws hc, words_cons_nonws hc,
            takeWhile_nonWs_append hB, dropWhile_nonWs_append hB]
          rw [ih (cs.dropWhile nonWs) B
            (le_trans (List.dropWhile_sublist (l := cs) nonWs).length_le hA) (Or.inr hB)]
          rfl

/-- For a character map `g` and filter `p` that leave whitespace unchanged
resp. keep it, the words of the filtered-and-mapped list are obtained by
filtering and mapping each word of the original separately. -/
theorem words_filter_map (g : Char → Char) (p : Char → Bool)
    (hg : ∀ c, wsChar c = true → g c = c) (hp : ∀ c, wsChar c = true → p c = true) :
    ∀ (n : Nat) (l : List Char), l.length ≤ n →
      words ((l.filter p).map g) =
        (words l).flatMap (fun w => words ((w.filter p).map g)) := by
  intro n
  induction n with
  | zero =>
    intro l hl
    have : l = [] := List.eq_nil_of_length_eq_zero (Nat.le_zero.mp hl)
    subst this
    rfl
  | succ m ih =>
    intro l hl
    match l with
    | [] => rfl
    | c :: cs =>
      simp only [List.length_cons, Nat.succ_le_succ_iff] at hl
      by_cases hc : wsChar c = true
      · rw [List.filter_cons_of_pos (hp c hc), List.map_cons, words_cons_ws (by rw [hg c hc]; exact hc),
          words_cons_ws hc]
        exact ih cs hl
      · have hsplit : c :: cs = (c :: cs.takeWhile nonWs) ++ cs.dropWhile nonWs := by
          rw [List.cons_append, List.takeWhile_append_dropWhile]
        rw [words_cons_nonws hc, hsplit]
        rw [List.filter_append, List.map_append]
        have hBws : (((cs.dropWhile nonWs).filter p).map g) = [] ∨
            leadWs (((cs.dropWhile nonWs).filter p).map g) = true := by
          cases hrest : cs.dropWhile nonWs with
          | nil => left; rfl
          | cons r rs =>
            right
            have hr : wsChar r = true := by
              have := List.head_dropWhile_not nonWs (l := cs)
              rw [hrest] at this
              have h2 := this (List.cons_ne_nil r rs)
              simp only [List.head_cons, nonWs] at h2
              simpa using h2
            rw [List.filter_cons_of_pos (hp r hr), List.map_cons, leadWs, hg r hr]
            exact hr
        rw [words_append_of_ws_boundary (((c :: cs.takeWhile nonWs).filter p).map g).length _ _
          le_rfl hBws]
        rw [ih (cs.dropWhile nonWs)
          (le_trans (List.dropWhile_sublist (l := cs) nonWs).length_le hl)]
        rw [List.flatMap_cons]

/-- For a character map `g` that preserves the whitespace class in both
directions, mapping commutes with the word decomposition. -/
theorem words_map (g : Char → Char) (hg : ∀ c, wsChar (g c) = wsChar c) :
    ∀ (n : Nat) (l : List Char), l.length ≤ n →
      words (l.map g) = (words l).map (fun w => w.map g) := by
  intro n
  induction n with
  | zero =>
    intro l hl
    have : l = [] := List.eq_nil_of_length_eq_zero (Nat.le_zero.mp hl)
    subst this
    rfl
  | succ m ih =>
    intro l hl
    match l with
    | [] => rfl
    | c :: cs =>
      simp only [List.length_cons, Nat.succ_le_succ_iff] at hl
      have hpred : (nonWs ∘ g) = nonWs := by
        funext d
        simp [nonWs, Function.comp, hg d]
      by_cases hc : wsChar c = true
      · rw [List.map_cons, words_cons_ws (by rw [hg c]; exact hc), words_cons_ws hc]
        exact ih cs hl
      · rw [List.map_cons, words_cons_nonws (by rw [hg c]; exact hc), words_cons_nonws hc,
          List.takeWhile_map, List.dropWhile_map, hpred,
          ih (cs.dropWhile nonWs)
            (le_trans (List.dropWhile_sublist (l := cs) nonWs).length_le hl)]
        simp only [List.map_cons]

/-- The quote-unification step is invisible after the allow-list filter:
curly quotes and their straight replacements are all outside the allow-list,
and allowed characters are left unchanged by the replacement. -/
theorem filter_map_quoteRepl (l : List Char) :
    List.filter allowedChar (l.map quoteReplChar) = List.filter allowedChar l := by
  induction l with
  | nil => rfl
  | cons c cs ih =>
    rw [List.map_cons]
    by_cases h : allowedChar c = true
    · rw [quoteRepl_of_allowed h, List.filter_cons_of_pos h, List.filter_cons_of_pos h, ih]
    · have h' : allowedChar c = false := Bool.eq_false_iff.mpr h
      rw [List.filter_cons_of_neg (by simp [allowedChar_quoteRepl_of_not h']),
        List.filter_cons_of_neg h, ih]

theorem dropTrailing_map_pyLower (l : List Char) :
    dropTrailingWs (l.map pyLowerChar) = (dropTrailingWs l).map pyLowerChar := by
  induction l with
  | nil => rfl
  | cons c cs ih =>
    rw [List.map_cons, dropTrailingWs, dropTrailingWs, ih]
    by_cases h : dropTrailingWs cs = [] ∧ wsChar c = true
    · rw [if_pos h, if_pos ⟨by rw [h.1]; rfl, by rw [wsChar_pyLower]; exact h.2⟩]
      rfl
    · rw [if_neg h, if_neg (by
        intro hx
        exact h ⟨by simpa using hx.1, by rw [← wsChar_pyLower c]; exact hx.2⟩)]
      rfl

theorem strip_map_pyLower (l : List Char) :
    stripWs (l.map pyLowerChar) = (stripWs l).map pyLowerChar := by
  unfold stripWs
  rw [List.dropWhile_map]
  have : (wsChar ∘ pyLowerChar) = wsChar := by
    funext d
    simp [Function.comp, wsChar_pyLower]
  rw [this, dropTrailing_map_pyLower]

theorem filter_allowed_map_pyLower (l : List Char) :
    List.filter allowedChar (l.map pyLowerChar) = (List.filter allowedChar l).map pyLowerChar := by
  rw [List.filter_map]
  have : (allowedChar ∘ pyLowerChar) = allowedChar := by
    funext d
    simp [Function.comp, allowedChar_pyLower]
  rw [this]

theorem filter_allowed_map_usToSp (l : List Char) :
    List.filter allowedChar (l.map usToSpChar) = (List.filter allowedChar l).map usToSpChar := by
  rw [List.filter_map]
  have : (allowedChar ∘ usToSpChar) = allowedChar := by
    funext d
    simp [Function.comp, allowedChar_usToSp]
  rw [this]

theorem map_usToSp_map_pyLower (l : List Char) :
    (l.map pyLowerChar).map usToSpChar = (l.map usToSpChar).map pyLowerChar := by
  rw [List.map_map, List.map_map]
  congr 1
  funext c
  exact usToSp_pyLower c

theorem ws_implies_allowed (c : Char) (h : wsChar c = true) : allowedChar c = true := by
  simp [allowedChar, h]

/-- The central factorization: V2's `_normalize` pipeline computes exactly the
spec's canonical form (lowercase, allow-list filter, underscores to spaces,
whitespace collapsed and stripped). -/
theorem normalizeL_eq_canonicalL (l : List Char) : normalizeL l = canonicalL l := by
  unfold normalizeL canonicalL
  rw [filter_map_quoteRepl, strip_collapse_eq_joinWords, strip_collapse_eq_joinWords]
  congr 1
  rw [words_filter_map usToSpChar allowedChar (fun c h => usToSp_of_ws h)
      ws_implies_allowed _ _ le_rfl,
    words_filter_map usToSpChar allowedChar (fun c h => usToSp_of_ws h)
      ws_implies_allowed _ _ le_rfl]
  congr 1
  rw [words_collapse, ← strip_map_pyLower, words_strip]

theorem normStr_eq_of_canonicalL {s t : String} (h : canonicalL s.data = canonicalL t.data) :
    normStr s = normStr t := by
  show (⟨normalizeL s.data⟩ : String) = ⟨normalizeL t.data⟩
  rw [normalizeL_eq_canonicalL, normalizeL_eq_canonicalL, h]

/--
C9: V2's `_normalize` (the Header Normalizer) is a pure total function of its
input — in this embedding it is a Lean function `Option String → String`, so
it cannot fail — with: (1) absent (`None`) input yielding the empty string;
and any two strings that agree after (2) the full spec canonicalization, or
that differ only in (3) letter case, (4) amount and kind of interior or edge
whitespace (identical maximal non-whitespace runs), (5) punctuation outside
the allow-list, or (6) underscore versus space, normalizing to the identical
string.
-/
theorem c9_normalize_total_invariant :
    pyNormalize none = "" ∧
    (∀ s t : String, canonicalStr s = canonicalStr t → normStr s = normStr t) ∧
    (∀ s t : String, lowerStr s = lowerStr t → normStr s = normStr t) ∧
    (∀ s t : String, words s.data = words t.data → normStr s = normStr t) ∧
    (∀ s t : String, s.data.filter allowedChar = t.data.filter allowedChar →
      normStr s = normStr t) ∧
    (∀ s t : String, s.data.map usToSpChar = t.data.map usToSpChar →
      normStr s = normStr t) := by
  refine ⟨rfl, ?_, ?_, ?_, ?_, ?_⟩
  · intro s t h
    exact normStr_eq_of_canonicalL (congrArg String.data h)
  · intro s t h
    have hd : s.data.map pyLowerChar = t.data.map pyLowerChar := congrArg String.data h
    apply normStr_eq_of_canonicalL
    unfold canonicalL
    rw [hd]
  · intro s t h
    apply normStr_eq_of_canonicalL
    unfold canonicalL
    rw [strip_collapse_eq_joinWords, strip_collapse_eq_joinWords,
      words_filter_map usToSpChar allowedChar (fun c hc => usToSp_of_ws hc)
        ws_implies_allowed _ _ le_rfl,
      words_filter_map usToSpChar allowedChar (fun c hc => usToSp_of_ws hc)
        ws_implies_allowed _ _ le_rfl,
      words_map pyLowerChar wsChar_pyLower _ _ le_rfl,
      words_map pyLowerChar wsChar_pyLower _ _ le_rfl, h]
  · intro s t h
    apply normStr_eq_of_canonicalL
    unfold canonicalL
    rw [filter_allowed_map_pyLower, filter_allowed_map_pyLower, h]
  · intro s t h
    apply normStr_eq_of_canonicalL
    unfold canonicalL
    have e : ∀ (l : List Char),
        (List.filter allowedChar (l.map pyLowerChar)).map usToSpChar =
          List.filter allowedChar ((l.map usToSpChar).map pyLowerChar) := by
      intro l
      rw [← filter_allowed_map_usToSp, map_usToSp_map_pyLower]
    rw [e, e, h]

/-- Witness for `c9_normalize_total_invariant` at concrete inputs: one
concrete instance per conjunct, each hypothesis discharged by evaluation. -/
theorem c9_normalize_total_invariant_witness :
    pyNormalize none = "" ∧
    normStr "X_ y" = normStr " x  Y!" ∧
    normStr "ABC" = normStr "abc" ∧
    normStr "a  b" = normStr "a b" ∧
    normStr "a,b" = normStr "ab" ∧
    normStr "Foo_Bar" = normStr "Foo Bar" :=
  ⟨c9_normalize_total_invariant.1,
   c9_normalize_total_invariant.2.1 "X_ y" " x  Y!" (by decide),
   c9_normalize_total_invariant.2.2.1 "ABC" "abc" (by decide),
   c9_normalize_total_invariant.2.2.2.1 "a  b" "a b" (by decide),
   c9_normalize_total_invariant.2.2.2.2.1 "a,b" "ab" (by decide),
   c9_normalize_total_invariant.2.2.2.2.2 "Foo_Bar" "Foo Bar" (by decide)⟩

/-! ### Question/answer entries and the two Form Populators -/

/-- A question/answer entry of a form's `data` sequence.  `rtext` and
`ranswer` are `response["text"]` and `response["answer"]`; an absent response
key is identified with the empty string (see the header comment). -/
structure QEntry where
  question : String
  type : String
  rtext : String
  ranswer : String
deriving DecidableEq

/-- V2 `_set_response`: write the value into the sub-field selected by the
entry's type (trimmed, lowercased).  `text` stores into `response["text"]` and
keeps the existing `answer` (`setdefault`); `radio`/`checkbox` store into
`response["answer"]` and keep the existing `text`; any other type defensively
stores the value into both sub-fields.  `none` stands for Python `None` (no
matching column), which is written as the empty string. -/
def set_response (d : QEntry) (value : Option String) : QEntry :=
  let dtype := lowerStr (strim d.type)
  if dtype = "text" then
    { d with rtext := value.getD "" }
  else if dtype = "radio" ∨ dtype = "checkbox" then
    { d with ranswer := value.getD "" }
  else
    { d with rtext := value.getD "", ranswer := value.getD "" }

/-- V2 `_index_by_normalized`: map normalized header to original header, later
duplicates overwriting earlier ones (Python dict comprehension). -/
def index_by_normalized (headers : List String) : List (String × String) :=
  headers.foldl (fun acc h => dictInsert acc (normStr h) h) []

/-- V2 `_populate_form_data_from_row` restricted to the `data` sequence it
mutates: for each entry, look the normalized question text up in the
normalized-header index, fetch the row value when the original column is
present in the row, honour the optional `Dataset Label` / `Form Name`
override, and store via `_set_response` (with `None` when nothing matched). -/
def populate_form_data_from_row (formData : List QEntry) (row : Row)
    (headerIndex : List (String × String)) (spdLabelOverride : Option String) :
    List QEntry :=
  formData.map (fun d =>
    let normq := normStr d.question
    let looked : Option String :=
      match alookup headerIndex normq with
      | some col => match alookup row col with
                    | some v => some v
                    | none => none
      | none => none
    let value : Option String :=
      match spdLabelOverride with
      | some lbl =>
          if normq = normStr "Dataset Label" ∨ normq = normStr "Form Name" then some lbl
          else looked
      | none => looked
    set_response d value)

/-- V1 `TemplateForms.question_types`: the insertion-ordered map from question
text to type built from a prototype's `data` sequence (later duplicates
overwrite the stored type but keep the first position). -/
def question_types (data : List QEntry) : List (String × String) :=
  data.foldl (fun acc q => dictInsert acc q.question q.type) []

/-- V1: `val.replace(';', ',').split(',')` item list after stripping and
dropping empties, used for the Associated CERs explosion. -/
def splitListL : List Char → List (List Char)
  | [] => [[]]
  | c :: cs =>
      if c = ',' then [] :: splitListL cs
      else match splitListL cs with
           | [] => [[c]]
           | w :: ws => (c :: w) :: ws

/-- The Associated CERs item list of a cell value: semicolons unified to
commas, split on commas, items stripped, empty items dropped. -/
def cersItems (val : String) : List String :=
  ((splitListL (val.data.map (fun c => if c = ';' then ',' else c))).map
    (fun w => (⟨stripWs w⟩ : String))).filter (fun x => x ≠ "")

/-- The body of the V1 `_populate_form_from_row` loop for one `(question,
type)` pair of `question_types`: a present column yields one entry with the
value in `answer` (Radio/Checkbox) or `text` (otherwise), except that a
present `Associated CERs` column is exploded into one entry per non-empty
trimmed item (or one empty entry when there are none); an absent column
yields one entry with both sub-fields empty. -/
def populate_question_v1 (row : Row) (q_text q_type : String) : List QEntry :=
  match alookup row q_text with
  | some val =>
      if q_text = "Associated CERs" then
        if cersItems val = [] then [⟨q_text, q_type, "", ""⟩]
        else (cersItems val).map (fun item => ⟨q_text, q_type, "", item⟩)
      else if q_type = "Radio" ∨ q_type = "Checkbox" then [⟨q_text, q_type, "", val⟩]
      else [⟨q_text, q_type, val, ""⟩]
  | none => [⟨q_text, q_type, "", ""⟩]

/-- The `data` sequence produced by V1 `_populate_form_from_row` (the form
clone's other fields are handled by `populate_form_from_row` below). -/
def populate_data_v1 (protoData : List QEntry) (row : Row) : List QEntry :=
  (question_types protoData).flatMap (fun qt => populate_question_v1 row qt.1 qt.2)

example :
    populate_data_v1 [⟨"Associated CERs", "Checkbox", "", ""⟩]
      [("Associated CERs", "A, B; C")] =
      [⟨"Associated CERs", "Checkbox", "", "A"⟩, ⟨"Associated CERs", "Checkbox", "", "B"⟩,
       ⟨"Associated CERs", "Checkbox", "", "C"⟩] := by decide

example :
    populate_form_data_from_row [⟨"Associated CERs", "Checkbox", "", ""⟩]
      [("Associated CERs", "A, B; C")] (index_by_normalized ["Associated CERs"]) none =
      [⟨"Associated CERs", "Checkbox", "", "A, B; C"⟩] := by decide

/-! ### Association-list lemmas -/

theorem alookup_dictInsert {α : Type} (acc : List (String × α)) (k : String) (v : α)
    (q : String) :
    alookup (dictInsert acc k v) q = if k = q then some v else alookup acc q := by
  induction acc with
  | nil => simp [dictInsert, alookup]
  | cons p rest ih =>
    obtain ⟨k', v'⟩ := p
    by_cases h1 : k' = k
    · subst h1
      simp only [dictInsert, if_pos rfl, alookup]
      by_cases h2 : k' = q
      · rw [if_pos h2, if_pos h2]
      · rw [if_neg h2, if_neg h2, if_neg h2]
    · simp only [dictInsert, if_neg h1, alookup, ih]
      by_cases h2 : k' = q
      · have hk : ¬(k = q) := fun hx => h1 (h2.trans hx.symm)
        rw [if_pos h2, if_neg hk, if_pos h2]
      · rw [if_neg h2]
        by_cases h3 : k = q
        · rw [if_pos h3, if_pos h3]
        · rw [if_neg h3, if_neg h3, if_neg h2]

theorem keys_dictInsert {α : Type} (acc : List (String × α)) (k : String) (v : α) :
    (dictInsert acc k v).map Prod.fst =
      if k ∈ acc.map Prod.fst then acc.map Prod.fst else acc.map Prod.fst ++ [k] := by
  induction acc with
  | nil => rfl
  | cons p rest ih =>
    obtain ⟨k', v'⟩ := p
    by_cases h1 : k' = k
    · subst h1
      simp [dictInsert]
    · simp only [dictInsert, if_neg h1, List.map_cons, List.mem_cons, ih]
      by_cases h2 : k ∈ rest.map Prod.fst
      · rw [if_pos h2, if_pos (Or.inr h2)]
      · rw [if_neg h2, if_neg (by
          intro hx
          rcases hx with hx | hx
          · exact h1 hx.symm
          · exact h2 hx), List.cons_append]

theorem keys_dictInsert_nodup {α : Type} {acc : List (String × α)}
    (h : (acc.map Prod.fst).Nodup) (k : String) (v : α) :
    ((dictInsert acc k v).map Prod.fst).Nodup := by
  rw [keys_dictInsert]
  by_cases hk : k ∈ acc.map Prod.fst
  · rw [if_pos hk]
    exact h
  · rw [if_neg hk]
    rw [List.nodup_append]
    refine ⟨h, List.nodup_singleton k, ?_⟩
    intro a ha hb
    rw [List.mem_singleton] at hb
    subst hb
    exact hk ha

theorem foldl_dictInsert_keys_nodup {α β : Type} (f : β → String) (g : β → α) :
    ∀ (l : List β) (acc : List (String × α)), (acc.map Prod.fst).Nodup →
      ((l.foldl (fun acc q => dictInsert acc (f q) (g q)) acc).map Prod.fst).Nodup := by
  intro l
  induction l with
  | nil => intro acc h; exact h
  | cons q rest ih =>
    intro acc h
    exact ih (dictInsert acc (f q) (g q)) (keys_dictInsert_nodup h (f q) (g q))

theorem question_types_keys_nodup (data : List QEntry) :
    ((question_types data).map Prod.fst).Nodup :=
  foldl_dictInsert_keys_nodup QEntry.question QEntry.type data [] List.nodup_nil

theorem alookup_isSome_of_mem_keys {α : Type} :
    ∀ (l : List (String × α)) (q : String), q ∈ l.map Prod.fst → (alookup l q).isSome := by
  intro l
  induction l with
  | nil => intro q h; cases h
  | cons p rest ih =>
    intro q h
    unfold alookup
    by_cases he : p.1 = q
    · rw [if_pos he]
      rfl
    · rw [if_neg he]
      apply ih
      rcases List.mem_cons.1 h with hx | hx
      · exact absurd hx.symm he
      · exact hx

theorem mem_keys_foldl_dictInsert {α β : Type} (f : β → String) (g : β → α) {e : β} :
    ∀ (l : List β) (acc : List (String × α)), e ∈ l ∨ f e ∈ acc.map Prod.fst →
      f e ∈ (l.foldl (fun acc q => dictInsert acc (f q) (g q)) acc).map Prod.fst := by
  intro l
  induction l with
  | nil =>
    intro acc h
    rcases h with h | h
    · cases h
    · exact h
  | cons x rest ih =>
    intro acc h
    apply ih
    rcases h with h | h
    · rcases List.mem_cons.1 h with rfl | hm
      · right
        rw [keys_dictInsert]
        by_cases hk : f e ∈ acc.map Prod.fst
        · rw [if_pos hk]; exact hk
        · rw [if_neg hk]
          exact List.mem_append_right _ (List.mem_singleton_self _)
      · left; exact hm
    · right
      rw [keys_dictInsert]
      by_cases hk : f x ∈ acc.map Prod.fst
      · rw [if_pos hk]; exact h
      · rw [if_neg hk]
        exact List.mem_append_left _ h

theorem question_types_lookup_isSome {data : List QEntry} {q : String}
    (h : ∃ e ∈ data, e.question = q) : (alookup (question_types data) q).isSome := by
  apply alookup_isSome_of_mem_keys
  obtain ⟨e, he, rfl⟩ := h
  exact mem_keys_foldl_dictInsert QEntry.question QEntry.type data [] (Or.inl he)

/-! ### Facts about the two Form Populators (claims C2, C3, C8) -/

theorem populate_question_v1_question (row : Row) (q qt : String) :
    ∀ e ∈ populate_question_v1 row q qt, e.question = q := by
  intro e he
  unfold populate_question_v1 at he
  split at he
  · rename_i val heq
    by_cases hq : q = "Associated CERs"
    · rw [if_pos hq] at he
      by_cases hi : cersItems val = []
      · rw [if_pos hi] at he
        rw [List.mem_singleton.1 he]
      · rw [if_neg hi] at he
        obtain ⟨item, _, rfl⟩ := List.mem_map.1 he
        rfl
    · rw [if_neg hq] at he
      by_cases ht : qt = "Radio" ∨ qt = "Checkbox"
      · rw [if_pos ht] at he
        rw [List.mem_singleton.1 he]
      · rw [if_neg ht] at he
        rw [List.mem_singleton.1 he]
  · rw [List.mem_singleton.1 he]

theorem populate_question_v1_exclusive (row : Row) (q qt : String) :
    ∀ e ∈ populate_question_v1 row q qt, e.rtext = "" ∨ e.ranswer = "" := by
  intro e he
  unfold populate_question_v1 at he
  split at he
  · rename_i val heq
    by_cases hq : q = "Associated CERs"
    · rw [if_pos hq] at he
      by_cases hi : cersItems val = []
      · rw [if_pos hi] at he
        rw [List.mem_singleton.1 he]
        left
        rfl
      · rw [if_neg hi] at he
        obtain ⟨item, _, rfl⟩ := List.mem_map.1 he
        left
        rfl
    · rw [if_neg hq] at he
      by_cases ht : qt = "Radio" ∨ qt = "Checkbox"
      · rw [if_pos ht] at he
        rw [List.mem_singleton.1 he]
        left
        rfl
      · rw [if_neg ht] at he
        rw [List.mem_singleton.1 he]
        right
        rfl
  · rw [List.mem_singleton.1 he]
    left
    rfl

/--
C2 (amended): in V1's `_populate_form_from_row` no populated entry ever has
both response sub-fields non-empty, and outside the `Associated CERs` special
case the active sub-field follows the type exactly (Radio/Checkbox store in
`answer` with `text` empty, every other type stores in `text` with `answer`
empty); in V2's `_set_response`, entries whose trimmed lowercased type is one
of the recognized `text` / `radio` / `checkbox` and whose prototype response
sub-fields are empty never end up with both sub-fields non-empty.  (The
original claim fails: V1 stores Associated CERs items in `answer` whatever
the type, and V2 writes the value into BOTH sub-fields for any unrecognized
type, see the counterexample.)
-/
theorem c2_response_exclusivity :
    (∀ (protoData : List QEntry) (row : Row),
      ∀ e ∈ populate_data_v1 protoData row, e.rtext = "" ∨ e.ranswer = "") ∧
    (∀ (row : Row) (q qt : String), ∀ e ∈ populate_question_v1 row q qt,
      q ≠ "Associated CERs" →
        ((qt = "Radio" ∨ qt = "Checkbox") → e.rtext = "") ∧
        (¬(qt = "Radio" ∨ qt = "Checkbox") → e.ranswer = "")) ∧
    (∀ (d : QEntry) (v : Option String), d.rtext = "" → d.ranswer = "" →
      (lowerStr (strim d.type) = "text" ∨ lowerStr (strim d.type) = "radio" ∨
        lowerStr (strim d.type) = "checkbox") →
      (set_response d v).rtext = "" ∨ (set_response d v).ranswer = "") := by
  refine ⟨?_, ?_, ?_⟩
  · intro protoData row e he
    obtain ⟨qt, _, he'⟩ := List.mem_flatMap.1 he
    exact populate_question_v1_exclusive row qt.1 qt.2 e he'
  · intro row q qt e he hq
    unfold populate_question_v1 at he
    split at he
    · rename_i val heq
      rw [if_neg hq] at he
      by_cases ht : qt = "Radio" ∨ qt = "Checkbox"
      · rw [if_pos ht] at he
        rw [List.mem_singleton.1 he]
        exact ⟨fun _ => rfl, fun hx => absurd ht hx⟩
      · rw [if_neg ht] at he
        rw [List.mem_singleton.1 he]
        exact ⟨fun hx => absurd hx ht, fun _ => rfl⟩
    · rw [List.mem_singleton.1 he]
      exact ⟨fun _ => rfl, fun _ => rfl⟩
  · intro d v h1 h2 h3
    unfold set_response
    by_cases ha : lowerStr (strim d.type) = "text"
    · rw [if_pos ha]
      right
      exact h2
    · rw [if_neg ha]
      by_cases hb : lowerStr (strim d.type) = "radio" ∨ lowerStr (strim d.type) = "checkbox"
      · rw [if_pos hb]
        left
        exact h1
      · exact absurd h3 (by
          intro hx
          rcases hx with hx | hx | hx
          · exact ha hx
          · exact hb (Or.inl hx)
          · exact hb (Or.inr hx))

/-- Witness for `c2_response_exclusivity` at concrete entries. -/
theorem c2_response_exclusivity_witness :
    ((⟨"Q", "Text", "v", ""⟩ : QEntry).rtext = "" ∨ (⟨"Q", "Text", "v", ""⟩ : QEntry).ranswer = "") ∧
    (⟨"Q", "Radio", "", "v"⟩ : QEntry).rtext = "" ∧
    ((set_response ⟨"Q", "Text", "", ""⟩ (some "v")).rtext = "" ∨
      (set_response ⟨"Q", "Text", "", ""⟩ (some "v")).ranswer = "") :=
  ⟨c2_response_exclusivity.1 [⟨"Q", "Text", "", ""⟩] [("Q", "v")] ⟨"Q", "Text", "v", ""⟩
      (by decide),
   (c2_response_exclusivity.2.1 [("Q", "v")] "Q" "Radio" ⟨"Q", "Radio", "", "v"⟩ (by decide)
      (by decide)).1 (Or.inl rfl),
   c2_response_exclusivity.2.2 ⟨"Q", "Text", "", ""⟩ (some "v") rfl rfl (Or.inl (by decide))⟩

/-- Counterexample to C2 as stated: V2's `_set_response` writes the value
into BOTH response sub-fields for an entry whose type is not one of
Text/Radio/Checkbox (here `Dropdown`), so a populated entry can have both
sub-fields non-empty, and `response.answer` is non-empty although the type is
not Radio or Checkbox. -/
theorem c2_counterexample :
    populate_form_data_from_row [⟨"Color", "Dropdown", "", ""⟩] [("Color", "X")]
      (index_by_normalized ["Color"]) none = [⟨"Color", "Dropdown", "X", "X"⟩] ∧
    ¬((⟨"Color", "Dropdown", "X", "X"⟩ : QEntry).rtext = "" ∨
      (⟨"Color", "Dropdown", "X", "X"⟩ : QEntry).ranswer = "") := by
  constructor
  · decide
  · decide

/--
C8 (amended): for a template question with no matching column, V1's
`_populate_form_from_row` emits an entry with BOTH response sub-fields empty,
and no error is raised (the populators are total functions in this
embedding); V2's `_populate_form_data_from_row` calls `_set_response` with
`None`, which clears only the ACTIVE sub-field for the recognized types
(`text` clears `response.text` but keeps the prototype's `response.answer`
via `setdefault`; `radio`/`checkbox` clear `response.answer` but keep
`response.text`), and clears both only for unrecognized types — so a stale
inactive prototype value survives in V2 (see the counterexample).
-/
theorem c8_unmatched_question :
    (∀ (row : Row) (q qt : String), alookup row q = none →
      populate_question_v1 row q qt = [⟨q, qt, "", ""⟩]) ∧
    (∀ (e : QEntry) (row : Row) (hdr : List (String × String)),
      alookup hdr (normStr e.question) = none →
      populate_form_data_from_row [e] row hdr none = [set_response e none]) ∧
    (∀ e : QEntry,
      (lowerStr (strim e.type) = "text" →
        (set_response e none).rtext = "" ∧ (set_response e none).ranswer = e.ranswer) ∧
      ((lowerStr (strim e.type) = "radio" ∨ lowerStr (strim e.type) = "checkbox") →
        (set_response e none).ranswer = "" ∧ (set_response e none).rtext = e.rtext) ∧
      (lowerStr (strim e.type) ≠ "text" →
        ¬(lowerStr (strim e.type) = "radio" ∨ lowerStr (strim e.type) = "checkbox") →
        (set_response e none).rtext = "" ∧ (set_response e none).ranswer = "")) := by
  refine ⟨?_, ?_, ?_⟩
  · intro row q qt h
    unfold populate_question_v1
    rw [h]
  · intro e row hdr h
    unfold populate_form_data_from_row
    rw [List.map_singleton]
    simp only [h]
  · intro e
    refine ⟨?_, ?_, ?_⟩
    · intro ht
      unfold set_response
      rw [if_pos ht]
      exact ⟨rfl, rfl⟩
    · intro ht
      unfold set_response
      rw [if_neg (by
        intro hx
        rcases ht with ht | ht <;> simp [ht] at hx), if_pos ht]
      exact ⟨rfl, rfl⟩
    · intro h1 h2
      unfold set_response
      rw [if_neg h1, if_neg h2]
      exact ⟨rfl, rfl⟩

/-- Witness for `c8_unmatched_question` at concrete inputs. -/
theorem c8_unmatched_question_witness :
    populate_question_v1 [("Other", "v")] "Missing Q" "Text" = [⟨"Missing Q", "Text", "", ""⟩] ∧
    populate_form_data_from_row [⟨"Missing Q", "Text", "", ""⟩] [("Other", "v")]
      (index_by_normalized ["Other"]) none = [set_response ⟨"Missing Q", "Text", "", ""⟩ none] ∧
    ((set_response ⟨"Missing Q", "Text", "", ""⟩ none).rtext = "" ∧
      (set_response ⟨"Missing Q", "Text", "", ""⟩ none).ranswer =
        (⟨"Missing Q", "Text", "", ""⟩ : QEntry).ranswer) :=
  ⟨c8_unmatched_question.1 [("Other", "v")] "Missing Q" "Text" (by decide),
   c8_unmatched_question.2.1 ⟨"Missing Q", "Text", "", ""⟩ [("Other", "v")]
     (index_by_normalized ["Other"]) (by decide),
   (c8_unmatched_question.2.2 ⟨"Missing Q", "Text", "", ""⟩).1 (by decide)⟩

/-- Counterexample to C8 as stated: in V2, an unmatched `Text` question whose
prototype carried a non-empty `response.answer` keeps that stale value — the
emitted entry does not have both sub-fields empty. -/
theorem c8_counterexample :
    populate_form_data_from_row [⟨"Unmatched Question", "Text", "old", "stale"⟩]
      [("Other", "v")] (index_by_normalized ["Other"]) none =
      [⟨"Unmatched Question", "Text", "", "stale"⟩] ∧
    ¬((⟨"Unmatched Question", "Text", "", "stale"⟩ : QEntry).rtext = "" ∧
      (⟨"Unmatched Question", "Text", "", "stale"⟩ : QEntry).ranswer = "") := by
  constructor
  · decide
  · decide

theorem filter_flatMap_question {l : List (String × String)} (row : Row) {q qt : String}
    (hnd : (l.map Prod.fst).Nodup) (hl : alookup l q = some qt) :
    (l.flatMap (fun p => populate_question_v1 row p.1 p.2)).filter
      (fun e => e.question = q) = populate_question_v1 row q qt := by
  induction l with
  | nil => cases hl
  | cons p rest ih =>
    obtain ⟨k, v⟩ := p
    rw [List.flatMap_cons, List.filter_append]
    simp only [List.map_cons, List.nodup_cons] at hnd
    unfold alookup at hl
    by_cases hk : k = q
    · rw [if_pos hk] at hl
      injection hl with hv
      subst hk hv
      rw [List.filter_eq_self.mpr (fun e he => by
        simp only [decide_eq_true_eq]
        exact populate_question_v1_question row k v e he)]
      rw [List.filter_eq_nil_iff.mpr (fun e he => by
        simp only [decide_eq_true_eq]
        obtain ⟨p', hp', he'⟩ := List.mem_flatMap.1 he
        rw [populate_question_v1_question row p'.1 p'.2 e he']
        intro hx
        exact hnd.1 (hx ▸ List.mem_map_of_mem Prod.fst hp')), List.append_nil]
    · rw [if_neg hk] at hl
      rw [ih hnd.2 hl, List.filter_eq_nil_iff.mpr (fun e he => by
        simp only [decide_eq_true_eq]
        rw [populate_question_v1_question row k v e he]
        exact hk), List.nil_append]

/--
C3 (amended): in V1's `_populate_form_from_row`, for every row in which the
`Associated CERs` column is present, the populated entries for that question
are exactly one entry per non-empty trimmed comma/semicolon-separated item
(same question and type, each item in its own `answer` field), and exactly
one entry with empty `answer` when the value has no items; the value
`"A, B; C"` splits into the three items A, B, C and the empty value into
none.  (The original claim also fails on V2: `_populate_form_data_from_row`
performs no splitting and emits exactly one entry holding the whole unsplit
value — see the counterexample.)
-/
theorem c3_associated_cers_explosion :
    (∀ (protoData : List QEntry) (row : Row) (val qt : String),
      alookup row "Associated CERs" = some val →
      alookup (question_types protoData) "Associated CERs" = some qt →
      (populate_data_v1 protoData row).filter (fun e => e.question = "Associated CERs") =
        (if cersItems val = [] then [⟨"Associated CERs", qt, "", ""⟩]
         else (cersItems val).map (fun item => ⟨"Associated CERs", qt, "", item⟩))) ∧
    cersItems "A, B; C" = ["A", "B", "C"] ∧ cersItems "" = [] := by
  refine ⟨?_, by decide, by decide⟩
  intro protoData row val qt hrow hqt
  unfold populate_data_v1
  rw [filter_flatMap_question row (question_types_keys_nodup protoData) hqt]
  unfold populate_question_v1
  simp only [hrow, if_true]

/-- Witness for `c3_associated_cers_explosion` at a concrete prototype and
row: the value `"A, B; C"` yields exactly the three entries A, B, C. -/
theorem c3_associated_cers_explosion_witness :
    (populate_data_v1 [⟨"Associated CERs", "Checkbox", "", ""⟩]
        [("Associated CERs", "A, B; C")]).filter
        (fun e => e.question = "Associated CERs") =
      (if cersItems "A, B; C" = [] then [⟨"Associated CERs", "Checkbox", "", ""⟩]
       else (cersItems "A, B; C").map
         (fun item => ⟨"Associated CERs", "Checkbox", "", item⟩)) :=
  c3_associated_cers_explosion.1 [⟨"Associated CERs", "Checkbox", "", ""⟩]
    [("Associated CERs", "A, B; C")] "A, B; C" "Checkbox" (by decide) (by decide)

/-- Counterexample to C3 as stated: V2's Form Populator
(`_populate_form_data_from_row`) does not explode the Associated CERs value —
for the value `"A, B; C"` it emits exactly ONE entry carrying the whole
unsplit string (the claim requires exactly three entries with answers A, B,
C). -/
theorem c3_counterexample :
    populate_form_data_from_row [⟨"Associated CERs", "Checkbox", "", ""⟩]
      [("Associated CERs", "A, B; C")] (index_by_normalized ["Associated CERs"]) none =
      [⟨"Associated CERs", "Checkbox", "", "A, B; C"⟩] ∧
    (populate_form_data_from_row [⟨"Associated CERs", "Checkbox", "", ""⟩]
      [("Associated CERs", "A, B; C")] (index_by_normalized ["Associated CERs"]) none).length ≠ 3 := by
  constructor
  · decide
  · decide

/-! ### The Row Grouper: V2 `group_df` and the V1 grouping loops (C6, C7) -/

/-- A loaded CSV ("DataFrame"): its header columns and its rows in file
order.  Cells are strings (`dtype=str` with `fillna("")`); a missing cell is
identified with the empty string. -/
structure DataFrame where
  columns : List String
  rows : List Row

/-- The tuple of a row's values for the given key columns
(pandas `df.groupby(keys)` key, stringified). -/
def keyTuple (keys : List String) (r : Row) : List String := keys.map (fun k => rget r k)

/-- V2 `group_df`: a missing input CSV (`df is None`) yields the empty
mapping; a supplied one raises when a key column is absent from its header,
and otherwise groups the rows by their key tuple, first-seen key order,
original row order inside each group (pandas `groupby` with `sort=False`,
`dropna=False`). -/
def group_df (df : Option DataFrame) (keys : List String) :
    Except String (List (List String × List Row)) :=
  match df with
  | none => .ok []
  | some d =>
      if keys.all (fun k => d.columns.contains k) then
        .ok (groupByKey (keyTuple keys) d.rows)
      else
        .error "Required column missing in CSV."

/-- V1 grouping of the SPD rows by stripped `refid`, dropping rows whose
`refid` is empty after stripping (`if rf:`). -/
def spd_by_refid (rows : List Row) : List (String × List Row) :=
  rows.foldl (fun acc r =>
    if strim (rget r "refid") = "" then acc
    else groupUpd acc (strim (rget r "refid")) r) []

/-- V1 grouping of the Safety rows by the stripped `(refid, spd_id)` pair
(every row is kept). -/
def safety_by_key (rows : List Row) : List ((String × String) × List Row) :=
  groupByKey (fun r => (strim (rget r "refid"), strim (rget r "spd_id"))) rows

/-- V1 grouping of the Harms rows by stripped `safety_id`, dropping rows
whose `safety_id` is empty after stripping (`if sid:`). -/
def harms_by_safety_id (rows : List Row) : List (String × List Row) :=
  rows.foldl (fun acc r =>
    if strim (rget r "safety_id") = "" then acc
    else groupUpd acc (strim (rget r "safety_id")) r) []

/-- V1 grouping of the Performance rows by the stripped `(refid, spd_id)`
pair. -/
def perf_by_key (rows : List Row) : List ((String × String) × List Row) :=
  groupByKey (fun r => (strim (rget r "refid"), strim (rget r "spd_id"))) rows

/-- V1 grouping of the Follow-up rows by the stripped `(refid, spd_id)`
pair. -/
def followup_by_key (rows : List Row) : List ((String × String) × List Row) :=
  groupByKey (fun r => (strim (rget r "refid"), strim (rget r "spd_id"))) rows

/-- V1 `App.on_build`'s `require`: a supplied CSV with at least one row must
have every required column among the first row's keys. -/
def requireCols (cols : List String) (rows : List Row) (name : String) : Except String Unit :=
  match rows with
  | [] => .ok ()
  | r :: _ =>
      if cols.all (fun c => (r.map Prod.fst).contains c) then .ok ()
      else .error (name ++ " CSV missing columns")

/-! Grouping pass invariants. -/

theorem keys_groupUpd {κ : Type} [DecidableEq κ] (acc : List (κ × List Row)) (k : κ) (r : Row) :
    (groupUpd acc k r).map Prod.fst =
      if k ∈ acc.map Prod.fst then acc.map Prod.fst else acc.map Prod.fst ++ [k] := by
  induction acc with
  | nil => rfl
  | cons p rest ih =>
    obtain ⟨kp, lp⟩ := p
    by_cases h1 : kp = k
    · subst h1
      simp [groupUpd]
    · simp only [groupUpd, if_neg h1, List.map_cons, List.mem_cons, ih]
      by_cases h2 : k ∈ rest.map Prod.fst
      · rw [if_pos h2, if_pos (Or.inr h2)]
      · rw [if_neg h2, if_neg (by
          intro hx
          rcases hx with hx | hx
          · exact h1 hx.symm
          · exact h2 hx), List.cons_append]

theorem keys_groupUpd_nodup {κ : Type} [DecidableEq κ] {acc : List (κ × List Row)}
    (h : (acc.map Prod.fst).Nodup) (k : κ) (r : Row) :
    ((groupUpd acc k r).map Prod.fst).Nodup := by
  rw [keys_groupUpd]
  by_cases hk : k ∈ acc.map Prod.fst
  · rw [if_pos hk]
    exact h
  · rw [if_neg hk]
    rw [List.nodup_append]
    refine ⟨h, List.nodup_singleton k, ?_⟩
    intro a ha hb
    rw [List.mem_singleton] at hb
    subst hb
    exact hk ha

theorem groupUpd_filters {κ : Type} [DecidableEq κ] (keyf : Row → κ) (r : Row) :
    ∀ (acc : List (κ × List Row)) (processed : List Row),
      (acc.map Prod.fst).Nodup →
      (∀ p ∈ acc, p.2 = processed.filter (fun x => keyf x = p.1)) →
      ((keyf r) ∉ acc.map Prod.fst →
        processed.filter (fun x => keyf x = keyf r) = []) →
      ∀ p ∈ groupUpd acc (keyf r) r,
        p.2 = (processed ++ [r]).filter (fun x => keyf x = p.1) := by
  intro acc
  induction acc with
  | nil =>
    intro processed _ _ hnew p hp
    simp only [groupUpd, List.mem_singleton] at hp
    subst hp
    rw [List.filter_append, hnew (by simp), List.nil_append]
    simp
  | cons q rest ih =>
    intro processed hnd hfil hnew p hp
    obtain ⟨kp, lp⟩ := q
    simp only [List.map_cons, List.nodup_cons] at hnd
    by_cases h1 : kp = keyf r
    · rw [groupUpd, if_pos h1] at hp
      rcases List.mem_cons.1 hp with rfl | hm
      · show lp ++ [r] = (processed ++ [r]).filter (fun x => decide (keyf x = kp))
        rw [List.filter_append]
        have hhead := hfil (kp, lp) (List.mem_cons_self _ _)
        simp only at hhead
        rw [← hhead]
        have : List.filter (fun x => decide (keyf x = kp)) [r] = [r] := by
          simp [List.filter_cons, h1]
        rw [this]
      · have hne : p.1 ≠ kp := by
          intro hx
          exact hnd.1 (hx ▸ List.mem_map_of_mem Prod.fst hm)
        rw [List.filter_append]
        have : List.filter (fun x => decide (keyf x = p.1)) [r] = [] := by
          simp only [List.filter_cons, List.filter_nil, decide_eq_true_eq]
          rw [if_neg (by
            intro hx
            exact hne (by rw [← hx, h1]))]
        rw [this, List.append_nil]
        exact hfil p (List.mem_cons_of_mem _ hm)
    · rw [groupUpd, if_neg h1] at hp
      rcases List.mem_cons.1 hp with rfl | hm
      · show lp = (processed ++ [r]).filter (fun x => decide (keyf x = kp))
        rw [List.filter_append]
        have : List.filter (fun x => decide (keyf x = kp)) [r] = [] := by
          simp only [List.filter_cons, List.filter_nil, decide_eq_true_eq]
          rw [if_neg (fun hx => h1 hx.symm)]
        rw [this, List.append_nil]
        have hhead := hfil (kp, lp) (List.mem_cons_self _ _)
        simpa using hhead
      · exact ih processed hnd.2
          (fun p' hp' => hfil p' (List.mem_cons_of_mem _ hp'))
          (fun hk => hnew (by
            intro hx
            rcases List.mem_cons.1 hx with hx | hx
            · exact h1 hx.symm
            · exact hk hx))
          p hm

/-- The single grouping pass places each row in the group of its key, keeps
groups in first-seen key order with no duplicate keys, and each group is the
subsequence of the rows carrying that key (so order inside groups is the
original row order and no row is lost or duplicated). -/
theorem groupByKey_spec {κ : Type} [DecidableEq κ] (keyf : Row → κ) (rows : List Row) :
    ((groupByKey keyf rows).map Prod.fst).Nodup ∧
    (∀ p ∈ groupByKey keyf rows, p.2 = rows.filter (fun x => keyf x = p.1)) ∧
    (∀ r ∈ rows, keyf r ∈ (groupByKey keyf rows).map Prod.fst) := by
  induction rows using List.reverseRecOn with
  | nil =>
    exact ⟨List.nodup_nil, fun p hp => absurd hp (List.not_mem_nil p), fun r hr => absurd hr (List.not_mem_nil r)⟩
  | append_singleton rows r ih =>
    have hfold : groupByKey keyf (rows ++ [r]) = groupUpd (groupByKey keyf rows) (keyf r) r := by
      unfold groupByKey
      rw [List.foldl_append]
      rfl
    obtain ⟨hnd, hfil, hcl⟩ := ih
    refine ⟨?_, ?_, ?_⟩
    · rw [hfold]
      exact keys_groupUpd_nodup hnd _ _
    · rw [hfold]
      apply groupUpd_filters keyf r _ rows hnd hfil
      intro hk
      rw [List.filter_eq_nil_iff]
      intro x hx
      simp only [decide_eq_true_eq]
      intro he
      exact hk (he ▸ hcl x hx)
    · intro x hx
      rw [hfold, keys_groupUpd]
      rcases List.mem_append.1 hx with hx | hx
      · by_cases hk : keyf r ∈ (groupByKey keyf rows).map Prod.fst
        · rw [if_pos hk]
          exact hcl x hx
        · rw [if_neg hk]
          exact List.mem_append_left _ (hcl x hx)
      · rw [List.mem_singleton] at hx
        subst hx
        by_cases hk : keyf x ∈ (groupByKey keyf rows).map Prod.fst
        · rw [if_pos hk]
          exact hk
        · rw [if_neg hk]
          exact List.mem_append_right _ (List.mem_singleton_self _)

theorem foldl_skip_eq_filter_foldl {κ : Type} [DecidableEq κ] (keyf : Row → κ)
    (skip : Row → Prop) [DecidablePred skip] :
    ∀ (rows : List Row) (acc : List (κ × List Row)),
      rows.foldl (fun acc r => if skip r then acc else groupUpd acc (keyf r) r) acc =
        (rows.filter (fun r => !(decide (skip r)))).foldl
          (fun acc r => groupUpd acc (keyf r) r) acc := by
  intro rows
  induction rows with
  | nil => intro acc; rfl
  | cons r rest ih =>
    intro acc
    by_cases h : skip r
    · rw [List.foldl_cons, if_pos h, List.filter_cons_of_neg (by simp [h]), ih]
    · rw [List.foldl_cons, if_neg h, List.filter_cons_of_pos (by simp [h]), List.foldl_cons, ih]

theorem spd_by_refid_eq (rows : List Row) :
    spd_by_refid rows = groupByKey (fun r => strim (rget r "refid"))
      (rows.filter (fun r => !(decide (strim (rget r "refid") = "")))) := by
  unfold spd_by_refid groupByKey
  exact foldl_skip_eq_filter_foldl _ _ rows []

/--
C6 (amended): V2's `group_df` places every row of a supplied CSV in exactly
one group — the one keyed by the row's linkage-key tuple; group keys are
pairwise distinct, every group is the subsequence of the input rows carrying
its key (so original row order is preserved within each group and the union
of the groups is exactly the original row set, nothing lost or duplicated).
V1's SPD grouping has the same property only for the rows whose stripped
`refid` is non-empty: rows with an empty `refid` are dropped from every
group (`if rf:`), so the union over groups equals the row set restricted to
non-empty keys — see the counterexample.
-/
theorem c6_grouping_partition :
    (∀ (d : DataFrame) (keys : List String) (g : List (List String × List Row)),
      group_df (some d) keys = .ok g →
      (g.map Prod.fst).Nodup ∧
      (∀ p ∈ g, p.2 = d.rows.filter (fun x => keyTuple keys x = p.1)) ∧
      (∀ r ∈ d.rows, keyTuple keys r ∈ g.map Prod.fst)) ∧
    (∀ rows : List Row,
      ((spd_by_refid rows).map Prod.fst).Nodup ∧
      (∀ p ∈ spd_by_refid rows,
        p.2 = (rows.filter (fun x => !(decide (strim (rget x "refid") = "")))).filter
          (fun x => strim (rget x "refid") = p.1)) ∧
      (∀ r ∈ rows, strim (rget r "refid") ≠ "" →
        strim (rget r "refid") ∈ (spd_by_refid rows).map Prod.fst)) := by
  constructor
  · intro d keys g hg
    simp only [group_df] at hg
    by_cases hc : keys.all (fun k => d.columns.contains k) = true
    · rw [if_pos hc] at hg
      injection hg with hg
      subst hg
      exact groupByKey_spec (keyTuple keys) d.rows
    · rw [if_neg hc] at hg
      cases hg
  · intro rows
    rw [spd_by_refid_eq]
    obtain ⟨hnd, hfil, hcl⟩ := groupByKey_spec (fun r => strim (rget r "refid"))
      (rows.filter (fun r => !(decide (strim (rget r "refid") = ""))))
    refine ⟨hnd, hfil, ?_⟩
    intro r hr hne
    exact hcl r (List.mem_filter.2 ⟨hr, by simp [hne]⟩)

/-- Witness for `c6_grouping_partition` at a concrete data frame and row
list. -/
theorem c6_grouping_partition_witness :
    ((group_df (some ⟨["refid"], [[("refid", "1")], [("refid", "2")], [("refid", "1")]]⟩)
        ["refid"] = Except.ok (groupByKey (keyTuple ["refid"])
          [[("refid", "1")], [("refid", "2")], [("refid", "1")]])) ∧
      ((groupByKey (keyTuple ["refid"])
        [[("refid", "1")], [("refid", "2")], [("refid", "1")]]).map Prod.fst).Nodup) ∧
    strim (rget [("refid", "7")] "refid") ∈ (spd_by_refid [[("refid", "7")]]).map Prod.fst := by
  refine ⟨⟨rfl, ?_⟩, ?_⟩
  · exact (c6_grouping_partition.1 ⟨["refid"], [[("refid", "1")], [("refid", "2")], [("refid", "1")]]⟩
      ["refid"] _ rfl).1
  · exact (c6_grouping_partition.2 [[("refid", "7")]]).2.2 [("refid", "7")] (by decide) (by decide)

/-- Counterexample to C6 as stated: V1's SPD grouping of a one-row CSV whose
`refid` is empty yields NO groups at all — the row is in no group, so the
union of all groups does not equal the original row set. -/
theorem c6_counterexample :
    spd_by_refid [[("refid", "")]] = [] ∧ ([[("refid", "")]] : List Row) ≠ [] := by
  constructor
  · decide
  · decide

/--
C7: grouping a supplied CSV whose required linkage column is absent from the
header raises the missing-column error (V2 `group_df`; V1's `require` check
does the same for a supplied non-empty CSV), while an unsupplied CSV
(`df is None`) skips grouping entirely and yields the empty mapping with no
error.
-/
theorem c7_missing_column :
    (∀ (d : DataFrame) (keys : List String) (k : String), k ∈ keys → k ∉ d.columns →
      group_df (some d) keys = .error "Required column missing in CSV.") ∧
    (∀ keys : List String, group_df none keys = .ok []) ∧
    (∀ (cols : List String) (r : Row) (rest : List Row) (c : String) (name : String),
      c ∈ cols → c ∉ r.map Prod.fst →
      requireCols cols (r :: rest) name = .error (name ++ " CSV missing columns")) := by
  refine ⟨?_, fun _ => rfl, ?_⟩
  · intro d keys k hk hnc
    show (if (keys.all fun k => d.columns.contains k) = true
        then Except.ok (groupByKey (keyTuple keys) d.rows)
        else Except.error "Required column missing in CSV.") =
      Except.error "Required column missing in CSV."
    rw [if_neg]
    intro hall
    rw [List.all_eq_true] at hall
    have := hall k hk
    rw [List.contains_eq_any_beq] at this
    rw [List.any_eq_true] at this
    obtain ⟨x, hx, hbx⟩ := this
    rw [beq_iff_eq] at hbx
    exact hnc (hbx ▸ hx)
  · intro cols r rest c name hc hnc
    show (if (cols.all fun c => (List.map Prod.fst r).contains c) = true
        then Except.ok ()
        else Except.error (name ++ " CSV missing columns")) =
      Except.error (name ++ " CSV missing columns")
    rw [if_neg]
    intro hall
    rw [List.all_eq_true] at hall
    have := hall c hc
    rw [List.contains_eq_any_beq] at this
    rw [List.any_eq_true] at this
    obtain ⟨x, hx, hbx⟩ := this
    rw [beq_iff_eq] at hbx
    exact hnc (hbx ▸ hx)

/-- Witness for `c7_missing_column` at concrete inputs. -/
theorem c7_missing_column_witness :
    group_df (some ⟨["refid"], [[("refid", "1")]]⟩) ["refid", "spd_id"] =
      Except.error "Required column missing in CSV." ∧
    group_df none ["refid", "spd_id"] = Except.ok [] ∧
    requireCols ["safety_id"] [[("refid", "1")]] "Harms" =
      Except.error ("Harms" ++ " CSV missing columns") :=
  ⟨c7_missing_column.1 ⟨["refid"], [[("refid", "1")]]⟩ ["refid", "spd_id"] "spd_id"
     (by decide) (by decide),
   c7_missing_column.2.1 ["refid", "spd_id"],
   c7_missing_column.2.2 ["safety_id"] [("refid", "1")] [] "safety_id" "Harms"
     (List.mem_singleton_self _) (by decide)⟩

/-! ### Form trees and V1's `TemplateForms` / `JSONBuilder` (C1, C4, C5, C10) -/

/-- The `user` constant of V1: all generated nodes carry this attribution. -/
def USER_NAME : String := "KimKwang"

/-- A form node: `form`, `key`, `user`, `level`, `is_subform`, the `data`
sequence, and the `child_forms` mapping (insertion-ordered).  Fields that V1
never reads or writes are not modelled. -/
inductive Form where
  | mk : String → String → String → Int → Int → List QEntry → List (String × Form) → Form

def Form.form : Form → String
  | .mk f _ _ _ _ _ _ => f

def Form.key : Form → String
  | .mk _ k _ _ _ _ _ => k

def Form.user : Form → String
  | .mk _ _ u _ _ _ _ => u

def Form.level : Form → Int
  | .mk _ _ _ lv _ _ _ => lv

def Form.subformFlag : Form → Int
  | .mk _ _ _ _ sb _ _ => sb

def Form.data : Form → List QEntry
  | .mk _ _ _ _ _ dt _ => dt

def Form.children : Form → List (String × Form)
  | .mk _ _ _ _ _ _ ch => ch

def Form.withKey : Form → String → Form
  | .mk f _ u lv sb dt ch, k => .mk f k u lv sb dt ch

def Form.withForm : Form → String → Form
  | .mk _ k u lv sb dt ch, f => .mk f k u lv sb dt ch

def Form.withUser : Form → String → Form
  | .mk f k _ lv sb dt ch, u => .mk f k u lv sb dt ch

def Form.withChildren : Form → List (String × Form) → Form
  | .mk f k u lv sb dt _, ch => .mk f k u lv sb dt ch

/-- Key lookup inside a JSON object (Python `d.get(k)`). -/
def jlookup : JVal → String → Option JVal
  | .objCons k v rest, key => if k = key then some v else jlookup rest key
  | _, _ => none

/-- Python `str(d.get(k) or "")` for string-valued fields. -/
def jgetStr (v : JVal) (k : String) : String :=
  match jlookup v k with
  | some (.str s) => s
  | _ => ""

/-- The `QEntry` view of one question dict of a template `data` array
(`q.get('question', '')`, `q.get('type', 'Text')`, and the `response`
sub-fields with absent keys read as the empty string). -/
def qentryOfJ (v : JVal) : QEntry :=
  { question := jgetStr v "question"
    type := match jlookup v "type" with
            | some (.str s) => s
            | _ => "Text"
    rtext := match jlookup v "response" with
             | some r => jgetStr r "text"
             | none => ""
    ranswer := match jlookup v "response" with
               | some r => jgetStr r "answer"
               | none => "" }

/-- The `data` array of a form node as `QEntry`s. -/
def dataOfJ : JVal → List QEntry
  | .arrCons x xs => qentryOfJ x :: dataOfJ xs
  | _ => []

mutual

/-- The typed `Form` view of a JSON form-node object: scan the fields,
reading `form` / `key` / `user` / `level` / `is_subform` / `data` /
`child_forms`; unknown fields are ignored, absent ones default to the empty
string, zero, or the empty sequence. -/
def jvalToForm : JVal → Form
  | .objCons k v rest =>
      match jvalToForm rest with
      | .mk fo ke us lv sb dt ch =>
        if k = "form" then .mk (match v with | .str s => s | _ => "") ke us lv sb dt ch
        else if k = "key" then .mk fo (match v with | .str s => s | _ => "") us lv sb dt ch
        else if k = "user" then .mk fo ke (match v with | .str s => s | _ => "") lv sb dt ch
        else if k = "level" then .mk fo ke us (match v with | .num n => n | _ => 0) sb dt ch
        else if k = "is_subform" then .mk fo ke us lv (match v with | .num n => n | _ => 0) dt ch
        else if k = "data" then .mk fo ke us lv sb (dataOfJ v) ch
        else if k = "child_forms" then .mk fo ke us lv sb dt (childrenOfJ v)
        else .mk fo ke us lv sb dt ch
  | _ => .mk "" "" "" 0 0 [] []

/-- The typed view of a `child_forms` object: identifier keys with converted
child nodes, insertion order preserved. -/
def childrenOfJ : JVal → List (String × Form)
  | .objCons k v rest => (k, jvalToForm v) :: childrenOfJ rest
  | _ => []

end

/-- The prototypes extracted by V1's `TemplateForms.__init__`. -/
structure TemplateFormsV1 where
  extraction : Form
  spd : Option Form
  safety : Option Form
  perf : Option Form
  harms : Option Form
  followup : Option Form

/-- First entry of a JSON object (`next(iter(ds_dict.keys()))`). -/
def firstObjEntry : JVal → Option (String × JVal)
  | .objCons k v _ => some (k, v)
  | _ => none

/-- Last assignment wins: V1's scanning loops assign the prototype on every
matching child, so the last matching child is kept. -/
def findLastChild (cf : List (String × Form)) (name : String) : Option Form :=
  (cf.reverse.find? (fun p => strim p.2.form = name)).map Prod.snd

/-- First match (V1 uses `break` for Harms and a `None` guard for the
Follow-up search under SPD). -/
def findFirstChild (cf : List (String × Form)) (name : String) : Option Form :=
  (cf.find? (fun p => strim p.2.form = name)).map Prod.snd

/-- V1 `TemplateForms.__init__`: accept a one-element array or an object,
require a non-empty `data_sets` object, take its first entry as the
Extraction prototype, and scan for the SPD / Safety / Performance /
Follow-up prototypes among the Extraction children (last match wins), the
Follow-up prototype also under SPD when absent at top level (first match),
and the Harms prototype under Safety (first match). -/
def templateForms (j : JVal) : Except String TemplateFormsV1 :=
  let root? : Except String JVal :=
    match j with
    | .arrCons x _ => .ok x
    | .arrNil => .error "Unexpected template format"
    | .objCons k v r => .ok (.objCons k v r)
    | .objNil => .ok .objNil
    | _ => .error "Unexpected template format"
  root? >>= fun root =>
  match jlookup root "data_sets" with
  | some ds =>
      match firstObjEntry ds with
      | some kv =>
          let extraction := jvalToForm kv.2
          let cf := extraction.children
          let spd := findLastChild cf "Study Parameters and Demographics"
          let safety := findLastChild cf "Safety"
          let perf := findLastChild cf "Performance (discrete)"
          let fu0 := findLastChild cf "Follow-up Subform"
          let fu := match fu0 with
                    | some f => some f
                    | none =>
                        match spd with
                        | some sp => findFirstChild sp.children "Follow-up Subform"
                        | none => none
          let harms := match safety with
                       | some sf => findFirstChild sf.children "Harms"
                       | none => none
          .ok ⟨extraction, spd, safety, perf, harms, fu⟩
      | none => .error "Template does not contain data_sets"
  | none => .error "Template does not contain data_sets"

/-- V1 `JSONBuilder._gen_id` (identical to V2 `IdFactory.next`), but note
that `JSONBuilder.__init__` fixes the initial counter at 10000 regardless of
the template. -/
def gen_id : Nat → String × Nat := idFactoryNext

/-- Generic association-list lookup (tuple keys). -/
def glookup {κ α : Type} [DecidableEq κ] : List (κ × α) → κ → Option α
  | [], _ => none
  | (k, v) :: rest, key => if k = key then some v else glookup rest key

/-- `grouping.get(key, [])`. -/
def getGroup {κ : Type} [DecidableEq κ] (g : List (κ × List Row)) (k : κ) : List Row :=
  (glookup g k).getD []

/-- V1 `JSONBuilder._make_extraction`: clone the Extraction prototype, set
`key` to the refid string and `user`, write the refid into the
`Article Identifier` question's `response.text`, and reset `child_forms`. -/
def make_extraction (t : TemplateFormsV1) (refid : String) : Form :=
  match t.extraction with
  | .mk f _ _ lv sb dt _ =>
      .mk f refid USER_NAME lv sb
        (dt.map (fun q => if q.question = "Article Identifier" then { q with rtext := refid } else q))
        []

/-- V1 `JSONBuilder._populate_form_from_row` on `Form`s: clone, set `user`,
rebuild `data` from `question_types` (see `populate_data_v1`); `form`, `key`
and `child_forms` are kept for the caller to overwrite. -/
def populate_form_from_row (proto : Form) (row : Row) : Form :=
  match proto with
  | .mk f k _ lv sb dt ch => .mk f k USER_NAME lv sb (populate_data_v1 dt row) ch

/-- The Performance loop of `JSONBuilder.build` for one SPD instance: per
row, skip when the prototype is absent, otherwise populate, set
`key = perf_<fresh id>`, `form`, `user`, and attach at a second fresh
identifier. -/
def perfLoop (perfProto : Option Form) : List Row → List (String × Form) → Nat →
    List (String × Form) × Nat
  | [], children, c => (children, c)
  | prow :: rest, children, c =>
      match perfProto with
      | none => perfLoop perfProto rest children c
      | some pp =>
          let pf0 := populate_form_from_row pp prow
          let g1 := gen_id c
          let pf := (((pf0.withKey ("perf_" ++ g1.1)).withForm
            "Performance (discrete)").withUser USER_NAME)
          let g2 := gen_id g1.2
          perfLoop perfProto rest (dictInsert children g2.1 pf) g2.2

/-- The Harms loop of `JSONBuilder.build` under one Safety node. -/
def harmsLoop (harmsProto : Option Form) : List Row → List (String × Form) → Nat →
    List (String × Form) × Nat
  | [], children, c => (children, c)
  | hrow :: rest, children, c =>
      match harmsProto with
      | none => harmsLoop harmsProto rest children c
      | some hp =>
          let hf0 := populate_form_from_row hp hrow
          let g1 := gen_id c
          let hf := (((hf0.withKey ("harms_" ++ g1.1)).withForm "Harms").withUser USER_NAME)
          let g2 := gen_id g1.2
          harmsLoop harmsProto rest (dictInsert children g2.1 hf) g2.2

/-- The Safety (plus nested Harms) loop of `JSONBuilder.build` for one SPD
instance.  `key` is `safety_<safety_id>` when the stripped `safety_id` is
non-empty, otherwise `safety_<fresh id>`; Harms rows are looked up by
`safety_id` (the empty id finds no group). -/
def safetyLoop (safetyProto harmsProto : Option Form)
    (harmsBy : List (String × List Row)) : List Row → List (String × Form) → Nat →
    List (String × Form) × Nat
  | [], children, c => (children, c)
  | srow :: rest, children, c =>
      match safetyProto with
      | none => safetyLoop safetyProto harmsProto harmsBy rest children c
      | some sp =>
          let sf0 := populate_form_from_row sp srow
          let sid := strim (rget srow "safety_id")
          let kc : String × Nat :=
            if sid = "" then
              let g := gen_id c
              ("safety_" ++ g.1, g.2)
            else ("safety_" ++ sid, c)
          let sf1 := ((((sf0.withKey kc.1).withForm "Safety").withUser USER_NAME).withChildren [])
          let hrows := match alookup harmsBy sid with
                       | some l => l
                       | none => []
          let hres := harmsLoop harmsProto hrows [] kc.2
          let sf := sf1.withChildren hres.1
          let g3 := gen_id hres.2
          safetyLoop safetyProto harmsProto harmsBy rest (dictInsert children g3.1 sf) g3.2

/-- The Follow-up loop of `JSONBuilder.build` for one SPD instance.  With a
prototype: populate, set `form` and `user`; note that the default argument
`f"followup_{self._gen_id()}"` of `fu_form.get('key', ...)` is evaluated
eagerly in Python, so one identifier is consumed even though the populated
clone already has a `key` (always present in this model).  Without a
prototype: synthesize an ad-hoc Text-only node from the row's non-linkage
columns. -/
def fuLoop (fuProto : Option Form) : List Row → List (String × Form) → Nat →
    List (String × Form) × Nat
  | [], children, c => (children, c)
  | frow :: rest, children, c =>
      match fuProto with
      | some fp =>
          let ff0 := populate_form_from_row fp frow
          let ff1 := ff0.withForm "Follow-up Subform"
          let gdef := gen_id c
          let ff := ff1.withUser USER_NAME
          let g2 := gen_id gdef.2
          fuLoop fuProto rest (dictInsert children g2.1 ff) g2.2
      | none =>
          let g1 := gen_id c
          let ff := Form.mk "Follow-up Subform" ("followup_" ++ g1.1) USER_NAME 1 1
            (frow.filterMap (fun cv =>
              if cv.1 = "refid" ∨ cv.1 = "spd_id" ∨ cv.1 = "safety_id" then none
              else some ⟨cv.1, "Text", cv.2, ""⟩))
            []
          let g2 := gen_id g1.2
          fuLoop fuProto rest (dictInsert children g2.1 ff) g2.2

/-- The body of the SPD loop for one row with non-empty `spd_id`: populate
the SPD prototype from the row, build its Performance, Safety/Harms and
Follow-up children for this `(refid, spd_id)` (threading the identifier
counter through them), and set `key = spd_<spd_id>`, `form`, `user`. -/
def spdChild (t : TemplateFormsV1) (sp : Form) (refid sid : String)
    (safetyBy : List ((String × String) × List Row))
    (harmsBy : List (String × List Row))
    (perfBy fuBy : List ((String × String) × List Row)) (r : Row) (c : Nat) :
    Form × Nat :=
  let spdF0 := populate_form_from_row sp r
  let res1 := perfLoop t.perf (getGroup perfBy (refid, sid)) [] c
  let res2 := safetyLoop t.safety t.harms harmsBy
    (getGroup safetyBy (refid, sid)) res1.1 res1.2
  let res3 := fuLoop t.followup (getGroup fuBy (refid, sid)) res2.1 res2.2
  (((((spdF0.withKey ("spd_" ++ sid)).withForm
    "Study Parameters and Demographics").withUser USER_NAME).withChildren res3.1), res3.2)

/-- The per-refid SPD loop of `JSONBuilder.build`: rows whose stripped
`spd_id` is empty are skipped (`continue`); otherwise a missing SPD
prototype raises, and the populated SPD node (key and attachment key both
`spd_<spd_id>`, so a later duplicate row overwrites the earlier node) is
attached into the Extraction children. -/
def spdLoop (t : TemplateFormsV1) (refid : String)
    (safetyBy : List ((String × String) × List Row))
    (harmsBy : List (String × List Row))
    (perfBy fuBy : List ((String × String) × List Row)) :
    List Row → List (String × Form) → Nat →
    Except String (List (String × Form) × Nat)
  | [], children, c => .ok (children, c)
  | r :: rest, children, c =>
      if strim (rget r "spd_id") = "" then
        spdLoop t refid safetyBy harmsBy perfBy fuBy rest children c
      else
        match t.spd with
        | none => .error "Template missing Study Parameters and Demographics prototype."
        | some sp =>
            let fc := spdChild t sp refid (strim (rget r "spd_id"))
              safetyBy harmsBy perfBy fuBy r c
            spdLoop t refid safetyBy harmsBy perfBy fuBy rest
              (dictInsert children ("spd_" ++ strim (rget r "spd_id")) fc.1) fc.2

/-- A top-level `refid` value: `int(refid) if refid.isdigit() else refid`
distinguishes a JSON number from a JSON string. -/
inductive RefVal where
  | int : Nat → RefVal
  | str : String → RefVal
deriving DecidableEq

/-- The top-level `refid` cast of V1 `JSONBuilder.build`:
`int(refid) if refid.isdigit() else refid`. -/
def refidCast (s : String) : RefVal :=
  if isNatString s then RefVal.int (valNat s) else RefVal.str s

/-- One output record of V1 `JSONBuilder.build`: the top-level `refid`
(cast to an integer when the group key is all digits), the fresh `data_sets`
identifier, and the Extraction node.  The constant top-level fields
(`tags = []`, `attachments = []`, `biblio_string = ""`) are not modelled. -/
structure RecordV1 where
  refid : RefVal
  dsKey : String
  extraction : Form

/-- The outer refid loop of `JSONBuilder.build`. -/
def buildRecords (t : TemplateFormsV1)
    (safetyBy : List ((String × String) × List Row))
    (harmsBy : List (String × List Row))
    (perfBy fuBy : List ((String × String) × List Row)) :
    List (String × List Row) → Nat → Except String (List RecordV1 × Nat)
  | [], c => .ok ([], c)
  | (rf, rlist) :: rest, c =>
      let g := gen_id c
      let extr := make_extraction t rf
      spdLoop t rf safetyBy harmsBy perfBy fuBy rlist [] g.2 >>= fun chc =>
      buildRecords t safetyBy harmsBy perfBy fuBy rest chc.2 >>= fun recs =>
      .ok ({ refid := refidCast rf,
             dsKey := g.1,
             extraction := extr.withChildren chc.1 } :: recs.1, recs.2)

/-- V1 `JSONBuilder.build`: group the five CSVs, then build one record per
unique non-empty `refid` in first-seen order, threading the identifier
counter from its fixed initial value 10000. -/
def build (t : TemplateFormsV1)
    (spd_rows safety_rows perf_rows harms_rows followup_rows : List Row) :
    Except String (List RecordV1) :=
  (buildRecords t (safety_by_key safety_rows) (harms_by_safety_id harms_rows)
    (perf_by_key perf_rows) (followup_by_key followup_rows)
    (spd_by_refid spd_rows) 10000).map Prod.fst

/-- The V1 program run: parse the template into prototypes, then build. -/
def build_from_template (j : JVal)
    (spd_rows safety_rows perf_rows harms_rows followup_rows : List Row) :
    Except String (List RecordV1) :=
  templateForms j >>= fun t =>
    build t spd_rows safety_rows perf_rows harms_rows followup_rows

theorem Form.key_withChildren (f : Form) (ch : List (String × Form)) :
    (f.withChildren ch).key = f.key := by cases f; rfl

theorem Form.children_withChildren (f : Form) (ch : List (String × Form)) :
    (f.withChildren ch).children = ch := by cases f; rfl

theorem Form.form_withChildren (f : Form) (ch : List (String × Form)) :
    (f.withChildren ch).form = f.form := by cases f; rfl

theorem Form.key_withUser (f : Form) (u : String) : (f.withUser u).key = f.key := by
  cases f; rfl

theorem Form.form_withUser (f : Form) (u : String) : (f.withUser u).form = f.form := by
  cases f; rfl

theorem Form.key_withForm (f : Form) (nm : String) : (f.withForm nm).key = f.key := by
  cases f; rfl

theorem Form.form_withForm (f : Form) (nm : String) : (f.withForm nm).form = nm := by
  cases f; rfl

theorem Form.key_withKey (f : Form) (k : String) : (f.withKey k).key = k := by
  cases f; rfl

theorem mem_dictInsert {α : Type} :
    ∀ (acc : List (String × α)) (k : String) (v : α) (p : String × α),
      p ∈ dictInsert acc k v → p ∈ acc ∨ p = (k, v) := by
  intro acc
  induction acc with
  | nil =>
    intro k v p hp
    simp only [dictInsert, List.mem_singleton] at hp
    exact Or.inr hp
  | cons q rest ih =>
    intro k v p hp
    obtain ⟨kq, vq⟩ := q
    by_cases h1 : kq = k
    · rw [dictInsert, if_pos h1] at hp
      rcases List.mem_cons.1 hp with rfl | hm
      · exact Or.inr rfl
      · exact Or.inl (List.mem_cons_of_mem _ hm)
    · rw [dictInsert, if_neg h1] at hp
      rcases List.mem_cons.1 hp with rfl | hm
      · exact Or.inl (List.mem_cons_self _ _)
      · rcases ih k v p hm with hx | hx
        · exact Or.inl (List.mem_cons_of_mem _ hx)
        · exact Or.inr hx

/-- The first-seen-order deduplicating fold over attachment keys. -/
def spdKeyStep (ks : List String) (r : Row) : List String :=
  if strim (rget r "spd_id") = "" then ks
  else if ("spd_" ++ strim (rget r "spd_id")) ∈ ks then ks
  else ks ++ ["spd_" ++ strim (rget r "spd_id")]

theorem spdKeyStep_nodup {ks : List String} (h : ks.Nodup) (r : Row) :
    (spdKeyStep ks r).Nodup := by
  unfold spdKeyStep
  by_cases h1 : strim (rget r "spd_id") = ""
  · rw [if_pos h1]
    exact h
  · rw [if_neg h1]
    by_cases h2 : ("spd_" ++ strim (rget r "spd_id")) ∈ ks
    · rw [if_pos h2]
      exact h
    · rw [if_neg h2, List.nodup_append]
      refine ⟨h, List.nodup_singleton _, ?_⟩
      intro a ha hb
      rw [List.mem_singleton] at hb
      subst hb
      exact h2 ha

theorem foldl_spdKeyStep_nodup (rows : List Row) :
    ∀ {ks : List String}, ks.Nodup → (rows.foldl spdKeyStep ks).Nodup := by
  induction rows with
  | nil => intro ks h; exact h
  | cons r rest ih => intro ks h; exact ih (spdKeyStep_nodup h r)

theorem foldl_spdKeyStep_sub (rows : List Row) :
    ∀ {ks : List String} {k : String}, k ∈ ks → k ∈ rows.foldl spdKeyStep ks := by
  induction rows with
  | nil => intro ks k h; exact h
  | cons r rest ih =>
    intro ks k h
    apply ih
    unfold spdKeyStep
    by_cases h1 : strim (rget r "spd_id") = ""
    · rw [if_pos h1]; exact h
    · rw [if_neg h1]
      by_cases h2 : ("spd_" ++ strim (rget r "spd_id")) ∈ ks
      · rw [if_pos h2]; exact h
      · rw [if_neg h2]; exact List.mem_append_left _ h

theorem foldl_spdKeyStep_mem (rows : List Row) :
    ∀ {ks : List String} {r : Row}, r ∈ rows → strim (rget r "spd_id") ≠ "" →
      ("spd_" ++ strim (rget r "spd_id")) ∈ rows.foldl spdKeyStep ks := by
  induction rows with
  | nil => intro ks r h; cases h
  | cons r0 rest ih =>
    intro ks r hr hne
    rw [List.foldl_cons]
    rcases List.mem_cons.1 hr with rfl | hm
    · apply foldl_spdKeyStep_sub
      unfold spdKeyStep
      rw [if_neg hne]
      by_cases h2 : ("spd_" ++ strim (rget r "spd_id")) ∈ ks
      · rw [if_pos h2]; exact h2
      · rw [if_neg h2]
        exact List.mem_append_right _ (List.mem_singleton_self _)
    · exact ih hm hne

theorem spdChild_key (t : TemplateFormsV1) (sp : Form) (refid sid : String)
    (sBy : List ((String × String) × List Row)) (hBy : List (String × List Row))
    (pBy fBy : List ((String × String) × List Row)) (r : Row) (c : Nat) :
    (spdChild t sp refid sid sBy hBy pBy fBy r c).1.key = "spd_" ++ sid := by
  unfold spdChild
  rw [Form.key_withChildren, Form.key_withUser, Form.key_withForm, Form.key_withKey]

theorem spdChild_form (t : TemplateFormsV1) (sp : Form) (refid sid : String)
    (sBy : List ((String × String) × List Row)) (hBy : List (String × List Row))
    (pBy fBy : List ((String × String) × List Row)) (r : Row) (c : Nat) :
    (spdChild t sp refid sid sBy hBy pBy fBy r c).1.form =
      "Study Parameters and Demographics" := by
  unfold spdChild
  rw [Form.form_withChildren, Form.form_withUser, Form.form_withForm]

theorem spdLoop_spec (t : TemplateFormsV1) (sp : Form) (hsp : t.spd = some sp)
    (refid : String) (sBy : List ((String × String) × List Row))
    (hBy : List (String × List Row)) (pBy fBy : List ((String × String) × List Row)) :
    ∀ (rows : List Row) (children : List (String × Form)) (c : Nat),
      ∃ ch' c', spdLoop t refid sBy hBy pBy fBy rows children c = .ok (ch', c') ∧
        ch'.map Prod.fst = rows.foldl spdKeyStep (children.map Prod.fst) ∧
        (∀ p ∈ ch', p ∈ children ∨
          ∃ r ∈ rows, strim (rget r "spd_id") ≠ "" ∧
            p.1 = "spd_" ++ strim (rget r "spd_id") ∧ p.2.key = p.1 ∧
            p.2.form = "Study Parameters and Demographics") := by
  intro rows
  induction rows with
  | nil =>
    intro children c
    exact ⟨children, c, rfl, rfl, fun p hp => Or.inl hp⟩
  | cons r rest ih =>
    intro children c
    by_cases h1 : strim (rget r "spd_id") = ""
    · obtain ⟨ch', c', heq, hkeys, hmem⟩ := ih children c
      refine ⟨ch', c', ?_, ?_, ?_⟩
      · simp only [spdLoop, if_pos h1]
        exact heq
      · rw [List.foldl_cons]
        have hstep : spdKeyStep (children.map Prod.fst) r = children.map Prod.fst := by
          unfold spdKeyStep
          rw [if_pos h1]
        rw [hstep]
        exact hkeys
      · intro p hp
        rcases hmem p hp with hx | ⟨r', hr', hx⟩
        · exact Or.inl hx
        · exact Or.inr ⟨r', List.mem_cons_of_mem _ hr', hx⟩
    · obtain ⟨ch', c', heq, hkeys, hmem⟩ := ih
        (dictInsert children ("spd_" ++ strim (rget r "spd_id"))
          (spdChild t sp refid (strim (rget r "spd_id")) sBy hBy pBy fBy r c).1)
        (spdChild t sp refid (strim (rget r "spd_id")) sBy hBy pBy fBy r c).2
      refine ⟨ch', c', ?_, ?_, ?_⟩
      · simp only [spdLoop, if_neg h1, hsp]
        exact heq
      · rw [List.foldl_cons]
        have hstep : spdKeyStep (children.map Prod.fst) r =
            (dictInsert children ("spd_" ++ strim (rget r "spd_id"))
              (spdChild t sp refid (strim (rget r "spd_id")) sBy hBy pBy fBy r c).1).map
                Prod.fst := by
          unfold spdKeyStep
          rw [if_neg h1, keys_dictInsert]
        rw [hstep]
        exact hkeys
      · intro p hp
        rcases hmem p hp with hx | ⟨r', hr', hx⟩
        · rcases mem_dictInsert _ _ _ _ hx with hy | hy
          · exact Or.inl hy
          · refine Or.inr ⟨r, List.mem_cons_self _ _, h1, ?_, ?_, ?_⟩
            · rw [hy]
            · rw [hy]
              exact spdChild_key t sp refid _ sBy hBy pBy fBy r c
            · rw [hy]
              exact spdChild_form t sp refid _ sBy hBy pBy fBy r c
        · exact Or.inr ⟨r', List.mem_cons_of_mem _ hr', hx⟩


theorem except_bind_ok {α β ε : Type} (a : α) (f : α → Except ε β) :
    (Except.ok a >>= f : Except ε β) = f a := rfl

/-- The outer refid loop builds one record per group, in order: its `refid`
is the cast group key, its Extraction children have distinct keys and are
exactly the `spd_<spd_id>` nodes of the group rows with non-empty stripped
`spd_id`. -/
theorem buildRecords_spec (t : TemplateFormsV1) (sp : Form) (hsp : t.spd = some sp)
    (sBy : List ((String × String) × List Row)) (hBy : List (String × List Row))
    (pBy fBy : List ((String × String) × List Row)) :
    ∀ (groups : List (String × List Row)) (c : Nat),
      ∃ recs c', buildRecords t sBy hBy pBy fBy groups c = .ok (recs, c') ∧
        List.Forall₂ (fun (g : String × List Row) (rec : RecordV1) =>
          rec.refid = refidCast g.1 ∧
          (rec.extraction.children.map Prod.fst).Nodup ∧
          (∀ p ∈ rec.extraction.children,
            ∃ r ∈ g.2, strim (rget r "spd_id") ≠ "" ∧
              p.1 = "spd_" ++ strim (rget r "spd_id") ∧ p.2.key = p.1 ∧
              p.2.form = "Study Parameters and Demographics") ∧
          (∀ r ∈ g.2, strim (rget r "spd_id") ≠ "" →
            ("spd_" ++ strim (rget r "spd_id")) ∈ rec.extraction.children.map Prod.fst))
          groups recs := by
  intro groups
  induction groups with
  | nil =>
    intro c
    exact ⟨[], c, rfl, List.Forall₂.nil⟩
  | cons g rest ih =>
    intro c
    obtain ⟨rf, rlist⟩ := g
    obtain ⟨ch', cl', hloop, hkeys, hmem⟩ :=
      spdLoop_spec t sp hsp rf sBy hBy pBy fBy rlist [] (gen_id c).2
    obtain ⟨recs, c', hrec, hall⟩ := ih cl'
    refine ⟨{ refid := refidCast rf, dsKey := (gen_id c).1,
              extraction := (make_extraction t rf).withChildren ch' } :: recs, c', ?_, ?_⟩
    · simp only [buildRecords, hloop, hrec, except_bind_ok]
    · refine List.Forall₂.cons ⟨rfl, ?_, ?_, ?_⟩ hall
      · show (((make_extraction t rf).withChildren ch').children.map Prod.fst).Nodup
        rw [Form.children_withChildren, hkeys]
        exact foldl_spdKeyStep_nodup rlist List.nodup_nil
      · intro p hp
        rw [Form.children_withChildren] at hp
        rcases hmem p hp with hx | hx
        · cases hx
        · exact hx
      · intro r hr hne
        rw [Form.children_withChildren, hkeys]
        exact foldl_spdKeyStep_mem rlist hr hne

theorem forall2_mem_right {α β : Type} {R : α → β → Prop} {l1 : List α} {l2 : List β}
    (h : List.Forall₂ R l1 l2) : ∀ b ∈ l2, ∃ a ∈ l1, R a b := by
  induction h with
  | nil => intro b hb; cases hb
  | cons h1 h2 ih =>
    intro b hb
    rcases List.mem_cons.1 hb with rfl | hb
    · exact ⟨_, List.mem_cons_self _ _, h1⟩
    · obtain ⟨a, ha, hRa⟩ := ih b hb
      exact ⟨a, List.mem_cons_of_mem _ ha, hRa⟩

theorem forall2_mem_left {α β : Type} {R : α → β → Prop} {l1 : List α} {l2 : List β}
    (h : List.Forall₂ R l1 l2) : ∀ a ∈ l1, ∃ b ∈ l2, R a b := by
  induction h with
  | nil => intro a ha; cases ha
  | cons h1 h2 ih =>
    intro a ha
    rcases List.mem_cons.1 ha with rfl | ha
    · exact ⟨_, List.mem_cons_self _ _, h1⟩
    · obtain ⟨b, hb, hRb⟩ := ih a ha
      exact ⟨b, List.mem_cons_of_mem _ hb, hRb⟩

theorem forall2_map_eq {α β γ : Type} {R : α → β → Prop} (f : β → γ) (g : α → γ)
    (hfg : ∀ a b, R a b → f b = g a) {l1 : List α} {l2 : List β}
    (h : List.Forall₂ R l1 l2) : l2.map f = l1.map g := by
  induction h with
  | nil => rfl
  | cons h1 h2 ih => rw [List.map_cons, List.map_cons, hfg _ _ h1, ih]

theorem spd_by_refid_rows_sub (rows : List Row) :
    ∀ g ∈ spd_by_refid rows, ∀ r ∈ g.2, r ∈ rows := by
  intro g hg r hr
  rw [spd_by_refid_eq] at hg
  have h2 := (groupByKey_spec (fun x => strim (rget x "refid")) _).2.1 g hg
  rw [h2] at hr
  exact List.mem_of_mem_filter (List.mem_of_mem_filter hr)

/--
C5 (amended, V1 side): every V1 build succeeds when the template has an SPD
prototype, and the top-level `refid` fields are, in group order, the integer
value of the group key when that key consists entirely of digits and the
original string otherwise (`int(refid) if refid.isdigit() else refid`).
V2 stores the group key string unconditionally — see the counterexample.
-/
theorem c5_refid_cast (t : TemplateFormsV1) (sp : Form) (hsp : t.spd = some sp)
    (spd safety perf harms fu : List Row) :
    ∃ recs, build t spd safety perf harms fu = .ok recs ∧
      recs.map RecordV1.refid = (spd_by_refid spd).map (fun g =>
        if isNatString g.1 then RefVal.int (valNat g.1) else RefVal.str g.1) := by
  obtain ⟨recs, c', hok, hall⟩ := buildRecords_spec t sp hsp (safety_by_key safety)
    (harms_by_safety_id harms) (perf_by_key perf) (followup_by_key fu)
    (spd_by_refid spd) 10000
  refine ⟨recs, ?_, ?_⟩
  · unfold build
    rw [hok]
    rfl
  · exact forall2_map_eq RecordV1.refid _ (fun g rec h => by rw [h.1]; rfl) hall

/--
C4 (amended, V1 side): in every successful V1 build, each record's Extraction
`child_forms` has pairwise-distinct attachment keys (one SPD node per unique
`spd_id` within the refid: a duplicate row overwrites the earlier node), and
every child is an SPD node whose `key` field is `spd_<spd_id>` for some input
row with a non-empty stripped `spd_id` — and the attachment key is that same
string `spd_<spd_id>`, NOT a freshly generated identifier; the same
attachment key recurs in every record whose group shares the `spd_id` — see
the counterexample.  (V2 does attach at a fresh generated identifier, one
node per row.)
-/
theorem c4_spd_attach_key (t : TemplateFormsV1) (sp : Form) (hsp : t.spd = some sp)
    (spd safety perf harms fu : List Row) :
    ∃ recs, build t spd safety perf harms fu = .ok recs ∧
      ∀ rec ∈ recs, (rec.extraction.children.map Prod.fst).Nodup ∧
        ∀ p ∈ rec.extraction.children,
          ∃ r ∈ spd, strim (rget r "spd_id") ≠ "" ∧
            p.1 = "spd_" ++ strim (rget r "spd_id") ∧ p.2.key = p.1 ∧
            p.2.form = "Study Parameters and Demographics" := by
  obtain ⟨recs, c', hok, hall⟩ := buildRecords_spec t sp hsp (safety_by_key safety)
    (harms_by_safety_id harms) (perf_by_key perf) (followup_by_key fu)
    (spd_by_refid spd) 10000
  refine ⟨recs, ?_, ?_⟩
  · unfold build
    rw [hok]
    rfl
  · intro rec hrec
    obtain ⟨g, hg, hR⟩ := forall2_mem_right hall rec hrec
    refine ⟨hR.2.1, ?_⟩
    intro p hp
    obtain ⟨r, hr, hprops⟩ := hR.2.2.1 p hp
    exact ⟨r, spd_by_refid_rows_sub spd g hg r hr, hprops⟩

/--
C10 (amended): an SPD row whose stripped `spd_id` is empty is skipped by the
`continue` with no error, contributes no SPD node, and — provided its
stripped `refid` is non-empty — its refid still yields a top-level record
whose Extraction children all stem from rows with non-empty `spd_id`.  When
the refid is ALSO empty the row yields no record at all (dropped at the
grouping stage) — see the counterexample.
-/
theorem c10_empty_spd_id_dropped (t : TemplateFormsV1) (sp : Form) (hsp : t.spd = some sp)
    (spd safety perf harms fu : List Row) (r : Row) (hr : r ∈ spd)
    (hrf : strim (rget r "refid") ≠ "") (hsid : strim (rget r "spd_id") = "") :
    ∃ recs, build t spd safety perf harms fu = .ok recs ∧
      ∃ rec ∈ recs, rec.refid = refidCast (strim (rget r "refid")) ∧
        ∀ p ∈ rec.extraction.children,
          ∃ r2 ∈ spd, r2 ≠ r ∧ strim (rget r2 "spd_id") ≠ "" ∧
            p.1 = "spd_" ++ strim (rget r2 "spd_id") := by
  obtain ⟨recs, c', hok, hall⟩ := buildRecords_spec t sp hsp (safety_by_key safety)
    (harms_by_safety_id harms) (perf_by_key perf) (followup_by_key fu)
    (spd_by_refid spd) 10000
  refine ⟨recs, ?_, ?_⟩
  · unfold build
    rw [hok]
    rfl
  · have hrf2 : r ∈ spd.filter (fun x => !(decide (strim (rget x "refid") = ""))) := by
      rw [List.mem_filter]
      exact ⟨hr, by simp [hrf]⟩
    have hkey := (groupByKey_spec (fun x => strim (rget x "refid")) _).2.2 r hrf2
    rw [← spd_by_refid_eq] at hkey
    obtain ⟨g, hg, hgk⟩ := List.mem_map.1 hkey
    obtain ⟨rec, hrecmem, hR⟩ := forall2_mem_left hall g hg
    refine ⟨rec, hrecmem, ?_, ?_⟩
    · rw [hR.1, hgk]
    · intro p hp
      obtain ⟨r2, hr2, hx⟩ := hR.2.2.1 p hp
      refine ⟨r2, spd_by_refid_rows_sub spd g hg r2 hr2, ?_, hx.1, hx.2.1⟩
      intro he
      rw [he] at hx
      exact hx.1 hsid

/-- A small concrete SPD prototype used by the concrete-run theorems below. -/
def spdProtoW : Form :=
  Form.mk "Study Parameters and Demographics" "k0" "" 1 1 [⟨"Age", "Text", "", ""⟩] []

/-- A concrete parsed template holding only the Extraction and SPD
prototypes. -/
def templW : TemplateFormsV1 :=
  ⟨Form.mk "Extraction" "" "" 0 0 [] [], some spdProtoW, none, none, none, none⟩

/-- Witness for `c5_refid_cast` at a concrete template and SPD CSV: the
all-digit refid `123` is cast to the integer 123, the refid `x1` stays a
string. -/
theorem c5_refid_cast_witness :
    templW.spd = some spdProtoW ∧
    (∃ recs, build templW [[("refid", "123")], [("refid", "x1")]] [] [] [] [] = .ok recs ∧
      recs.map RecordV1.refid =
        (spd_by_refid [[("refid", "123")], [("refid", "x1")]]).map (fun g =>
          if isNatString g.1 then RefVal.int (valNat g.1) else RefVal.str g.1)) :=
  ⟨rfl, c5_refid_cast templW spdProtoW rfl [[("refid", "123")], [("refid", "x1")]] [] [] [] []⟩

/-- V2 `build_from_files`, top-level refid slice (lines 284-290): for each
group of the SPD frame keyed by `refid`, `refid = refid_key[0]` and
`top_record["refid"] = refid` — the group-key string itself, with no integer
cast (the CSV is read with `dtype=str`). -/
def topRefidsV2 (spd_df : Option DataFrame) : Except String (List RefVal) :=
  (group_df spd_df ["refid"]).map (fun gs => gs.map (fun g => RefVal.str (g.1.headD "")))

/-- Counterexample for C5: V2 stores the refid string `123` unchanged in the
top-level record even though it consists entirely of digits, where the claim
requires the integer 123. -/
theorem c5_counterexample :
    topRefidsV2 (some ⟨["refid"], [[("refid", "123")]]⟩) = .ok [RefVal.str "123"] ∧
      isNatString "123" = true ∧ RefVal.str "123" ≠ RefVal.int (valNat "123") :=
  ⟨rfl, by decide, by decide⟩

/-- Witness for `c4_spd_attach_key` at a concrete template and a one-row SPD
CSV. -/
theorem c4_spd_attach_key_witness :
    templW.spd = some spdProtoW ∧
    (∃ recs, build templW [[("refid", "1"), ("spd_id", "5")]] [] [] [] [] = .ok recs ∧
      ∀ rec ∈ recs, (rec.extraction.children.map Prod.fst).Nodup ∧
        ∀ p ∈ rec.extraction.children,
          ∃ r ∈ [[("refid", "1"), ("spd_id", "5")]], strim (rget r "spd_id") ≠ "" ∧
            p.1 = "spd_" ++ strim (rget r "spd_id") ∧ p.2.key = p.1 ∧
            p.2.form = "Study Parameters and Demographics") :=
  ⟨rfl, c4_spd_attach_key templW spdProtoW rfl [[("refid", "1"), ("spd_id", "5")]] [] [] [] []⟩

/-- Counterexample for C4: two refids sharing `spd_id` 5 — V1 attaches each
SPD node at the key `spd_5` itself, the same non-generated attachment key in
both records, refuting `attaches at a freshly generated identifier (one not
reused in the run)`. -/
theorem c4_counterexample :
    Except.map (fun recs => recs.map (fun rec => rec.extraction.children.map Prod.fst))
      (build templW [[("refid", "1"), ("spd_id", "5")], [("refid", "2"), ("spd_id", "5")]]
        [] [] [] []) = .ok [["spd_5"], ["spd_5"]] := rfl

/-- Witness for `c10_empty_spd_id_dropped` at a concrete one-row SPD CSV whose
row has no `spd_id` column (so its value is empty after trimming). -/
theorem c10_empty_spd_id_dropped_witness :
    (templW.spd = some spdProtoW ∧ [("refid", "7")] ∈ [[("refid", "7")]] ∧
      strim (rget [("refid", "7")] "refid") ≠ "" ∧
      strim (rget [("refid", "7")] "spd_id") = "") ∧
    (∃ recs, build templW [[("refid", "7")]] [] [] [] [] = .ok recs ∧
      ∃ rec ∈ recs, rec.refid = refidCast (strim (rget [("refid", "7")] "refid")) ∧
        ∀ p ∈ rec.extraction.children,
          ∃ r2 ∈ [[("refid", "7")]], r2 ≠ [("refid", "7")] ∧
            strim (rget r2 "spd_id") ≠ "" ∧
            p.1 = "spd_" ++ strim (rget r2 "spd_id")) :=
  ⟨⟨rfl, by decide, by decide, by decide⟩,
    c10_empty_spd_id_dropped templW spdProtoW rfl [[("refid", "7")]] [] [] [] []
      [("refid", "7")] (by decide) (by decide) (by decide)⟩

/-- Counterexample for C10: a row whose `spd_id` AND `refid` are both empty
after trimming is within the scope of the claim (empty `spd_id`) yet its
refid yields no top-level record at all — the build returns the empty record
list (with no error), because the empty-refid row is dropped at the grouping
stage. -/
theorem c10_counterexample :
    strim (rget [("refid", ""), ("spd_id", "")] "spd_id") = "" ∧
      build templW [[("refid", ""), ("spd_id", "")]] [] [] [] [] = .ok [] :=
  ⟨rfl, rfl⟩

/-- A concrete template whose tree holds the numeric mapping keys 9999 (the
`data_sets` entry) and 10003 (the SPD prototype's key under the Extraction
`child_forms`). -/
def c1Template : JVal :=
  jobj [("data_sets", jobj [("9999",
    jobj [("form", JVal.str "Extraction"),
          ("child_forms", jobj [("10003",
            jobj [("form", JVal.str "Study Parameters and Demographics")])])])])]

/-- Counterexample for C1: V1 seeds its counter at the fixed 10000 without
scanning the template, so on this template the third generated identifier of
the run, 10003 (used as a `data_sets` key of the third record), collides with
the integer-like mapping key 10003 already present in the template. -/
theorem c1_counterexample :
    Except.map (fun recs => recs.map RecordV1.dsKey)
      (build_from_template c1Template
        [[("refid", "1")], [("refid", "2")], [("refid", "3")]] [] [] [] [])
      = .ok ["10001", "10002", "10003"] ∧
    "10003" ∈ collectNumericKeyStrings c1Template := ⟨rfl, by decide⟩
